import Mathlib

/-!
# Verification of the maitreffen bed-booking core

Shallow embedding of the bed-booking state machine of `server.js`:
the booking ledger (table `bookings`), the restriction cascade, and the
waitlist store (table `waitlist`), together with proofs of the spec's
claims about them.

The embedding follows the multi-event handlers of `server.js`
(`POST /api/bookings/:bedId`, `DELETE /api/bookings/:bedId`,
`DELETE /api/bookings/:bedId/unblock`, `POST /api/bookings/:bedId/claim`,
`GET /api/bookings`, and the `/api/waitlist` handlers). The database is a
list of rows; SQL timestamps (`CURRENT_TIMESTAMP`) are passed in as a
`now : Nat` parameter; the tenant resolver's result (`req.eventId`) is an
`Option Nat`.
-/

namespace Maitreffen

/-- Booking status, the closed set of strings the handlers write into the
`status` column: `'booked'`, `'blocked'`, `'women_only'`, `'men_only'`. -/
inductive Status where
  | booked
  | blocked
  | women_only
  | men_only
deriving DecidableEq, Repr

/-- The travel-logistics columns of a `bookings` row
(`arrival_date, departure_date, arrival_time, departure_time, transport,
needs_pickup, can_offer_ride, seats_available, departure_city,
train_station, train_time, train_number`). -/
structure Logistics where
  arrivalDate : Option String
  departureDate : Option String
  arrivalTime : Option String
  departureTime : Option String
  transport : Option String
  needsPickup : Bool
  canOfferRide : Bool
  seatsAvailable : Int
  departureCity : Option String
  trainStation : Option String
  trainTime : Option String
  trainNumber : Option String
deriving DecidableEq, Repr

/-- The column defaults used by the cascade `INSERT`, which names only
`(event_id, bed_id, name, booked_at, status, blocked_by)`: every logistics
column takes its schema default (`NULL` / `FALSE` / `0`). -/
def defaultLogistics : Logistics :=
  { arrivalDate := none, departureDate := none, arrivalTime := none,
    departureTime := none, transport := none, needsPickup := false,
    canOfferRide := false, seatsAvailable := 0, departureCity := none,
    trainStation := none, trainTime := none, trainNumber := none }

/-- The logistics fields of a request body (`req.body`); each field may be
absent (`undefined` in JS, `none` here). A present-but-empty string is
modelled as `some ""` so that the JS `|| null` falsy coercion is faithful. -/
structure ReqLogistics where
  arrivalDate : Option String
  departureDate : Option String
  arrivalTime : Option String
  departureTime : Option String
  transport : Option String
  needsPickup : Option Bool
  canOfferRide : Option Bool
  seatsAvailable : Option Int
  departureCity : Option String
  trainStation : Option String
  trainTime : Option String
  trainNumber : Option String
deriving DecidableEq, Repr

/-- JS `name.trim()`: whitespace stripped from both ends. (Written over
the character list so that it evaluates by kernel reduction; `String.trim`
itself is defined through well-founded `Substring` helpers.) -/
def jsTrim (s : String) : String :=
  String.mk (((s.data.dropWhile Char.isWhitespace).reverse.dropWhile
    Char.isWhitespace).reverse)

/-- JS `x || null` on an optional string: `undefined` and the empty string
(both falsy) become `null`. -/
def orNull (o : Option String) : Option String :=
  match o with
  | some s => if s = "" then none else some s
  | none => none

/-- JS `x || false` on an optional boolean. -/
def orFalse (o : Option Bool) : Bool := o.getD false

/-- JS `x || 0` on an optional number (`0 || 0 = 0`, so `getD 0` is exact). -/
def orZero (o : Option Int) : Int := o.getD 0

/-- The logistics column values written by `POST /api/bookings/:bedId` and
`POST /api/bookings/:bedId/claim`: each request field defaulted exactly as
in the parameter list `[..., arrivalDate || null, ..., needsPickup || false,
canOfferRide || false, seatsAvailable || 0, ...]`. -/
def reqLogistics (q : ReqLogistics) : Logistics :=
  { arrivalDate := orNull q.arrivalDate, departureDate := orNull q.departureDate,
    arrivalTime := orNull q.arrivalTime, departureTime := orNull q.departureTime,
    transport := orNull q.transport, needsPickup := orFalse q.needsPickup,
    canOfferRide := orFalse q.canOfferRide, seatsAvailable := orZero q.seatsAvailable,
    departureCity := orNull q.departureCity, trainStation := orNull q.trainStation,
    trainTime := orNull q.trainTime, trainNumber := orNull q.trainNumber }

/-- One row of the `bookings` table (the SERIAL `id` is never read by the
handlers and is omitted). Identity is `(event_id, bed_id)`, declared
`UNIQUE(event_id, bed_id)` in the schema. -/
structure Row where
  eventId : Nat
  bedId : String
  name : String
  bookedAt : Nat
  status : Status
  blockedBy : Option String
  lg : Logistics
deriving DecidableEq, Repr

/-- The bookings table: a list of rows. -/
abbrev DB := List Row

/-- Key match on `(event_id, bed_id)`, the `WHERE event_id = $1 AND
bed_id = $2` condition. -/
def keyMatch (e : Nat) (b : String) (r : Row) : Bool :=
  r.eventId == e && r.bedId == b

/-- `SELECT * FROM bookings WHERE event_id = $1 AND bed_id = $2`, reduced
to its first row (the key is unique in every reachable ledger). -/
def findRow (db : DB) (e : Nat) (b : String) : Option Row :=
  db.find? (keyMatch e b)

/-- All rows with a given `(event_id, bed_id)` key. -/
def rowsFor (db : DB) (e : Nat) (b : String) : DB :=
  db.filter (keyMatch e b)

/-- HTTP responses of the booking endpoints, as far as the spec observes
them: success payloads, the 400 validation failure, the 404 missing-event
failure, and the generic 500 `Datenbankfehler`. -/
inductive Resp where
  | ok (bedId name : String)
  | okDelete (bedId : String)
  | badRequest (msg : String)
  | notFound
  | serverError
deriving DecidableEq, Repr

/-- The fully booked row written by the primary upsert of
`POST /api/bookings/:bedId`: `status = 'booked'`, `blocked_by = NULL`,
`booked_at = CURRENT_TIMESTAMP`, name trimmed, all logistics columns set
from the request with falsy defaulting. -/
def bookedRow (e : Nat) (b : String) (name : String) (now : Nat)
    (q : ReqLogistics) : Row :=
  { eventId := e, bedId := b, name := jsTrim name, bookedAt := now,
    status := Status.booked, blockedBy := none, lg := reqLogistics q }

/-- `INSERT ... ON CONFLICT (event_id, bed_id) DO UPDATE SET ...`: if a row
with the key exists it is overwritten in place (the `SET` list covers every
non-key column), otherwise the row is inserted. -/
def upsertBooking (db : DB) (row : Row) : DB :=
  if db.any (keyMatch row.eventId row.bedId) then
    db.map (fun r => if keyMatch row.eventId row.bedId r then row else r)
  else db ++ [row]

/-- The secondary row the cascade inserts for a free sibling bed, by
restriction kind: `'blocked'` gets the lock marker prefixed to the anchor's
trimmed occupant name, `'women'`/`'men'` get the fixed room labels; any
other kind leaves `status` undefined and the `if (status)` guard skips the
insert. `blocked_by` is always the anchor bed id. -/
def cascadeRow (e : Nat) (anchor : String) (otherBed : String) (kind : String)
    (name : String) (now : Nat) : Option Row :=
  if kind = "blocked" then
    some { eventId := e, bedId := otherBed, name := "🔒 " ++ jsTrim name,
           bookedAt := now, status := Status.blocked, blockedBy := some anchor,
           lg := defaultLogistics }
  else if kind = "women" then
    some { eventId := e, bedId := otherBed, name := "♀️ Frauenzimmer",
           bookedAt := now, status := Status.women_only, blockedBy := some anchor,
           lg := defaultLogistics }
  else if kind = "men" then
    some { eventId := e, bedId := otherBed, name := "♂️ Männerzimmer",
           bookedAt := now, status := Status.men_only, blockedBy := some anchor,
           lg := defaultLogistics }
  else none

/-- One iteration of the cascade loop body for sibling `otherBed`: skip the
anchor itself, check existence (`SELECT ... WHERE event_id AND bed_id`)
against the current transaction state, and insert the restriction row only
when no row exists. -/
def cascadeStep (e : Nat) (anchor kind name : String) (now : Nat)
    (db : DB) (otherBed : String) : DB :=
  if otherBed == anchor then db
  else if db.any (keyMatch e otherBed) then db
  else
    match cascadeRow e anchor otherBed kind name now with
    | some row => db ++ [row]
    | none => db

/-- The `for (const otherBedId of roomBeds)` cascade loop. -/
def applyCascade (e : Nat) (anchor kind name : String) (now : Nat)
    (db : DB) (roomBeds : List String) : DB :=
  roomBeds.foldl (cascadeStep e anchor kind name now) db

/-- `POST /api/bookings/:bedId`: missing event gives 404; blank trimmed
name gives 400; otherwise the primary upsert runs, then, when
`roomRestriction` is present and not `'none'` and `roomBeds` is an array,
the cascade loop. (`roomRestriction = ''` is falsy in JS and skips the
cascade; for `''` the kind matches none of the three branches so the
result is the same either way.) -/
def reserve (db : DB) (eo : Option Nat) (now : Nat) (bedId name : String)
    (restriction : Option String) (roomBeds : Option (List String))
    (q : ReqLogistics) : Resp × DB :=
  match eo with
  | none => (Resp.notFound, db)
  | some e =>
    if jsTrim name = "" then (Resp.badRequest "Name ist erforderlich", db)
    else
      let row := bookedRow e bedId name now q
      let db1 := upsertBooking db row
      let db2 :=
        match restriction, roomBeds with
        | some kind, some beds =>
          if kind ≠ "none" then applyCascade e bedId kind name now db1 beds
          else db1
        | _, _ => db1
      (Resp.ok bedId name, db2)

/-- `DELETE /api/bookings/:bedId`: in one transaction, delete every row of
the event whose `blocked_by` equals the bed id, then the row of the bed
itself; always a success response. -/
def release (db : DB) (eo : Option Nat) (bedId : String) : Resp × DB :=
  match eo with
  | none => (Resp.notFound, db)
  | some e =>
    let db1 := db.filter (fun r => !(r.eventId == e && r.blockedBy == some bedId))
    let db2 := db1.filter (fun r => !(r.eventId == e && r.bedId == bedId))
    (Resp.okDelete bedId, db2)

/-- The three statuses of the `status IN ('blocked', 'women_only',
'men_only')` condition of the unblock endpoint. -/
def restrictedStatus (s : Status) : Bool :=
  match s with
  | Status.blocked => true
  | Status.women_only => true
  | Status.men_only => true
  | Status.booked => false

/-- `DELETE /api/bookings/:bedId/unblock`: delete the bed's row only when
its status is one of the three restricted statuses; always a success
response; no other row is touched. -/
def unblock (db : DB) (eo : Option Nat) (bedId : String) : Resp × DB :=
  match eo with
  | none => (Resp.notFound, db)
  | some e =>
    (Resp.okDelete bedId,
     db.filter (fun r => !(keyMatch e bedId r && restrictedStatus r.status)))

/-- The two statuses of the claim endpoint's `status IN ('women_only',
'men_only')` condition. -/
def genderRestricted (s : Status) : Bool :=
  match s with
  | Status.women_only => true
  | Status.men_only => true
  | _ => false

/-- The `UPDATE ... SET` of the claim endpoint applied to one row: name,
status, timestamp and all logistics columns are overwritten; `blocked_by`
is not in the `SET` list and is preserved. -/
def claimUpdate (name : String) (now : Nat) (q : ReqLogistics) (r : Row) : Row :=
  { r with name := jsTrim name, status := Status.booked, bookedAt := now,
           lg := reqLogistics q }

/-- `POST /api/bookings/:bedId/claim`: missing event gives 404, blank name
gives 400; otherwise a single `UPDATE` guarded by
`status IN ('women_only','men_only')` — zero rows affected when the guard
fails — and a success response in either case. -/
def claimOp (db : DB) (eo : Option Nat) (now : Nat) (bedId name : String)
    (q : ReqLogistics) : Resp × DB :=
  match eo with
  | none => (Resp.notFound, db)
  | some e =>
    if jsTrim name = "" then (Resp.badRequest "Name ist erforderlich", db)
    else
      (Resp.ok bedId name,
       db.map (fun r =>
         if keyMatch e bedId r && genderRestricted r.status then
           claimUpdate name now q r
         else r))

/-- `GET /api/bookings`: all rows of the event (the handler keys them by
`bed_id`; with the unique key each bed appears once, so the row list
carries the same information). -/
def listBookings (db : DB) (eo : Option Nat) : Option DB :=
  match eo with
  | none => none
  | some e => some (db.filter (fun r => r.eventId == e))

/-! ## Waitlist store (`/api/waitlist` handlers, table `waitlist`) -/

/-- One row of the `waitlist` table: `(id, event_id, name, comment,
created_at)`. -/
structure WRow where
  id : Nat
  eventId : Nat
  name : String
  comment : Option String
  createdAt : Nat
deriving DecidableEq, Repr

/-- The waitlist table together with the next SERIAL id. -/
structure WDB where
  rows : List WRow
  nextId : Nat
deriving DecidableEq, Repr

/-- Waitlist responses, as far as the spec observes them. -/
inductive WResp where
  | entries (l : List WRow)
  | created (entry : WRow)
  | okDelete (id : Nat)
  | badRequest (msg : String)
  | notFound
deriving DecidableEq, Repr

/-- JS `comment?.trim() || null`: absent comment or blank trim becomes
`null`, otherwise the trimmed comment is stored. -/
def normComment (c : Option String) : Option String :=
  match c with
  | some s => if jsTrim s = "" then none else some (jsTrim s)
  | none => none

/-- Ascending order on creation time, the `ORDER BY created_at ASC`. -/
def createdLE (a b : WRow) : Prop := a.createdAt ≤ b.createdAt

instance : DecidableRel createdLE := fun a b => Nat.decLe a.createdAt b.createdAt

instance : IsTotal WRow createdLE := ⟨fun a b => Nat.le_total a.createdAt b.createdAt⟩

instance : IsTrans WRow createdLE := ⟨fun _ _ _ h h2 => Nat.le_trans h h2⟩

/-- `GET /api/waitlist`: the event's rows, `ORDER BY created_at ASC`
(modelled as a stable insertion sort on creation time). -/
def waitlistList (w : WDB) (eo : Option Nat) : Option (List WRow) :=
  match eo with
  | none => none
  | some e => some (List.insertionSort createdLE (w.rows.filter (fun r => r.eventId == e)))

/-- `POST /api/waitlist`: blank trimmed name gives 400; otherwise `INSERT
... RETURNING *` appends a fresh row with the trimmed name, normalised
comment and `created_at = CURRENT_TIMESTAMP`, and returns it. -/
def waitlistAppend (w : WDB) (eo : Option Nat) (now : Nat) (name : String)
    (comment : Option String) : WResp × WDB :=
  match eo with
  | none => (WResp.notFound, w)
  | some e =>
    if jsTrim name = "" then (WResp.badRequest "Name ist erforderlich", w)
    else
      let entry : WRow :=
        { id := w.nextId, eventId := e, name := jsTrim name,
          comment := normComment comment, createdAt := now }
      (WResp.created entry, { rows := w.rows ++ [entry], nextId := w.nextId + 1 })

/-- `DELETE /api/waitlist/:id`: `DELETE ... WHERE id = $1 AND event_id = $2`,
always a success response. -/
def waitlistRemove (w : WDB) (eo : Option Nat) (id : Nat) : WResp × WDB :=
  match eo with
  | none => (WResp.notFound, w)
  | some e =>
    (WResp.okDelete id,
     { rows := w.rows.filter (fun r => !(r.id == id && r.eventId == e)),
       nextId := w.nextId })

/-! ## Transactional model of `POST /api/bookings/:bedId`

The handler wraps its queries in `BEGIN ... COMMIT`, with `ROLLBACK` in the
catch block: a storage failure at any query aborts the transaction, the
committed ledger is left as it was, and the caller receives the generic
500 failure. The failure schedule `fails` supplies, per issued query, the
bit "this call raises"; a missing entry means the call succeeds. -/

/-- Consume the next failure flag of the schedule. -/
def takeFlag : List Bool → Bool × List Bool
  | [] => (false, [])
  | f :: rest => (f, rest)

/-- The cascade loop inside the transaction: each `SELECT` and each
`INSERT` is a failable query; `none` means some query raised and the
transaction aborts. -/
def cascadeTxGo (e : Nat) (anchor kind name : String) (now : Nat) :
    List String → DB → List Bool → Option (DB × List Bool)
  | [], d, fl => some (d, fl)
  | otherBed :: rest, d, fl =>
    if otherBed == anchor then cascadeTxGo e anchor kind name now rest d fl
    else
      let (f, fl1) := takeFlag fl
      if f then none
      else if d.any (keyMatch e otherBed) then
        cascadeTxGo e anchor kind name now rest d fl1
      else
        match cascadeRow e anchor otherBed kind name now with
        | none => cascadeTxGo e anchor kind name now rest d fl1
        | some row =>
          let (f2, fl2) := takeFlag fl1
          if f2 then none
          else cascadeTxGo e anchor kind name now rest (d ++ [row]) fl2

/-- The transaction body of `POST /api/bookings/:bedId` with failable
storage: `BEGIN`, the primary upsert, the cascade queries and `COMMIT`
each consume a failure flag; on the first failure the catch block rolls
the transaction back and answers 500 with the committed ledger unchanged.
`casc` is the already-evaluated cascade guard (`roomRestriction` present,
not `'none'`, `roomBeds` an array). -/
def reserveTxCore (db : DB) (fails : List Bool) (e now : Nat)
    (bedId name : String) (casc : Option (String × List String))
    (q : ReqLogistics) : Resp × DB :=
  let (fBegin, fl0) := takeFlag fails
  if fBegin then (Resp.serverError, db)
  else
    let (fUpsert, fl1) := takeFlag fl0
    if fUpsert then (Resp.serverError, db)
    else
      let db1 := upsertBooking db (bookedRow e bedId name now q)
      let step2 : Option (DB × List Bool) :=
        match casc with
        | some (kind, beds) => cascadeTxGo e bedId kind name now beds db1 fl1
        | none => some (db1, fl1)
      match step2 with
      | none => (Resp.serverError, db)
      | some (db2, fl2) =>
        let (fCommit, _) := takeFlag fl2
        if fCommit then (Resp.serverError, db)
        else (Resp.ok bedId name, db2)

/-- `POST /api/bookings/:bedId` with failable storage: the event and name
guards run before `BEGIN`; the cascade guard
(`roomRestriction && roomRestriction !== 'none' && roomBeds && Array.isArray(roomBeds)`)
selects whether the transaction body runs the cascade loop. -/
def reserveTx (db : DB) (fails : List Bool) (eo : Option Nat) (now : Nat)
    (bedId name : String) (restriction : Option String)
    (roomBeds : Option (List String)) (q : ReqLogistics) : Resp × DB :=
  match eo with
  | none => (Resp.notFound, db)
  | some e =>
    if jsTrim name = "" then (Resp.badRequest "Name ist erforderlich", db)
    else
      reserveTxCore db fails e now bedId name
        (match restriction, roomBeds with
         | some kind, some beds =>
           if kind ≠ "none" then some (kind, beds) else none
         | _, _ => none) q

/-! ## Reachable ledgers

The states of the `bookings` table that the booking endpoints can actually
produce, starting from the empty table. -/

/-- A ledger is reachable when it arises from the empty table by a
sequence of booking-endpoint calls (with arbitrary arguments, including
absent events and blank names, which leave the table unchanged). -/
inductive Reachable : DB → Prop where
  | empty : Reachable []
  | reserveStep (db : DB) (eo : Option Nat) (now : Nat) (bedId name : String)
      (restriction : Option String) (roomBeds : Option (List String))
      (q : ReqLogistics) :
      Reachable db → Reachable (reserve db eo now bedId name restriction roomBeds q).2
  | releaseStep (db : DB) (eo : Option Nat) (bedId : String) :
      Reachable db → Reachable (release db eo bedId).2
  | unblockStep (db : DB) (eo : Option Nat) (bedId : String) :
      Reachable db → Reachable (unblock db eo bedId).2
  | claimStep (db : DB) (eo : Option Nat) (now : Nat) (bedId name : String)
      (q : ReqLogistics) :
      Reachable db → Reachable (claimOp db eo now bedId name q).2

/-- Key uniqueness: no two rows share `(event_id, bed_id)` — the schema's
`UNIQUE(event_id, bed_id)` constraint. -/
def KeysUnique (db : DB) : Prop :=
  db.Pairwise (fun a b => a.eventId ≠ b.eventId ∨ a.bedId ≠ b.bedId)

instance (db : DB) : Decidable (KeysUnique db) :=
  List.instDecidablePairwise db

/-- Every blocking relation points at a live anchor: a row of the same
event at the referenced bed, with status `booked` and no blocking relation
of its own. -/
def AnchoredDeps (db : DB) : Prop :=
  ∀ r ∈ db, ∀ a : String, r.blockedBy = some a →
    ∃ r2 ∈ db, r2.eventId = r.eventId ∧ r2.bedId = a ∧
      r2.status = Status.booked ∧ r2.blockedBy = none

/-- A request body carrying no logistics fields at all. -/
def noReq : ReqLogistics :=
  { arrivalDate := none, departureDate := none, arrivalTime := none,
    departureTime := none, transport := none, needsPickup := none,
    canOfferRide := none, seatsAvailable := none, departureCity := none,
    trainStation := none, trainTime := none, trainNumber := none }

/-- Example ledger rows (the spec §8 scenario after its Claim step): an
anchor booking, a gender-restricted slot claimed into a booking (blocking
relation retained), and a still-restricted slot. -/
def exRowAnchor : Row :=
  { eventId := 1, bedId := "B1", name := "Alice", bookedAt := 10,
    status := Status.booked, blockedBy := none, lg := defaultLogistics }

def exRowClaimed : Row :=
  { eventId := 1, bedId := "B2", name := "Dana", bookedAt := 20,
    status := Status.booked, blockedBy := some "B1", lg := defaultLogistics }

def exRowWomen : Row :=
  { eventId := 1, bedId := "B3", name := "♀️ Frauenzimmer", bookedAt := 10,
    status := Status.women_only, blockedBy := some "B1", lg := defaultLogistics }

def exDB : DB := [exRowAnchor, exRowClaimed, exRowWomen]

/-! ## Basic lemmas about keys, lookup and filtering -/

theorem keyMatch_eq_true {e : Nat} {b : String} {r : Row} :
    keyMatch e b r = true ↔ r.eventId = e ∧ r.bedId = b := by
  simp [keyMatch]

theorem keyMatch_eq_false {e : Nat} {b : String} {r : Row} :
    keyMatch e b r = false ↔ ¬(r.eventId = e ∧ r.bedId = b) := by
  simp [keyMatch]

theorem findRow_eq_none_iff {db : DB} {e : Nat} {b : String} :
    findRow db e b = none ↔ ∀ r ∈ db, ¬(r.eventId = e ∧ r.bedId = b) := by
  simp [findRow, List.find?_eq_none, keyMatch]

theorem rowsFor_eq_nil_iff {db : DB} {e : Nat} {b : String} :
    rowsFor db e b = [] ↔ ∀ r ∈ db, ¬(r.eventId = e ∧ r.bedId = b) := by
  simp [rowsFor, List.filter_eq_nil_iff, keyMatch]

theorem any_keyMatch_eq_false_iff {db : DB} {e : Nat} {b : String} :
    db.any (keyMatch e b) = false ↔ ∀ r ∈ db, ¬(r.eventId = e ∧ r.bedId = b) := by
  simp [List.any_eq_false, keyMatch]

theorem findRow_eq_head_rowsFor (db : DB) (e : Nat) (b : String) :
    findRow db e b = (rowsFor db e b).head? := by
  induction db with
  | nil => rfl
  | cons r d ih =>
    by_cases h : keyMatch e b r = true
    · simp only [findRow, rowsFor] at ih ⊢
      rw [List.find?_cons_of_pos _ h, List.filter_cons_of_pos h]
      rfl
    · simp only [findRow, rowsFor] at ih ⊢
      rw [List.find?_cons_of_neg _ h, List.filter_cons_of_neg h, ih]

theorem findRow_mem {db : DB} {e : Nat} {b : String} {r : Row}
    (h : findRow db e b = some r) : r ∈ db ∧ r.eventId = e ∧ r.bedId = b := by
  have hm := List.mem_of_find?_eq_some h
  have hk := List.find?_some h
  exact ⟨hm, keyMatch_eq_true.mp hk⟩

/-- In a ledger with unique keys, every row sharing the key of a looked-up
row is that row. -/
theorem keysUnique_all_eq {db : DB} (hu : KeysUnique db) {e : Nat} {b : String}
    {r : Row} (hr : r ∈ db) (hk : r.eventId = e ∧ r.bedId = b) :
    ∀ x ∈ db, x.eventId = e ∧ x.bedId = b → x = r := by
  induction db with
  | nil => simp at hr
  | cons y d ih =>
    rcases List.pairwise_cons.mp hu with ⟨hy, hd⟩
    intro x hx hxk
    rcases List.mem_cons.mp hr with hr1 | hr2
    · rcases List.mem_cons.mp hx with hx1 | hx2
      · rw [hx1, hr1]
      · exfalso
        rw [hr1] at hk
        rcases hy x hx2 with hne | hne
        · exact hne (hk.1.trans hxk.1.symm)
        · exact hne (hk.2.trans hxk.2.symm)
    · rcases List.mem_cons.mp hx with hx1 | hx2
      · exfalso
        rw [hx1] at hxk
        rcases hy r hr2 with hne | hne
        · exact hne (hxk.1.trans hk.1.symm)
        · exact hne (hxk.2.trans hk.2.symm)
      · exact ih hd hr2 x hx2 hxk

/-- A map that fixes every row is the identity on the ledger. -/
theorem map_eq_self_of_fixes {db : DB} {f : Row → Row}
    (h : ∀ r ∈ db, f r = r) : db.map f = db := by
  calc db.map f = db.map id := List.map_congr_left h
  _ = db := List.map_id db

/-! ## Upsert lemmas (`INSERT ... ON CONFLICT DO UPDATE`) -/

theorem upsert_map_find?_self (db : DB) (row : Row)
    (h : db.any (keyMatch row.eventId row.bedId) = true) :
    (db.map (fun r => if keyMatch row.eventId row.bedId r then row else r)).find?
      (keyMatch row.eventId row.bedId) = some row := by
  induction db with
  | nil => simp at h
  | cons r d ih =>
    by_cases hr : keyMatch row.eventId row.bedId r = true
    · have hrow : keyMatch row.eventId row.bedId row = true := by simp [keyMatch]
      rw [List.map_cons, if_pos hr]
      exact List.find?_cons_of_pos _ hrow
    · rw [List.map_cons, if_neg hr, List.find?_cons_of_neg _ hr]
      refine ih ?_
      rcases List.any_eq_true.mp h with ⟨x, hx, hpx⟩
      rcases List.mem_cons.mp hx with h1 | h2
      · exact absurd (h1 ▸ hpx) hr
      · exact List.any_eq_true.mpr ⟨x, h2, hpx⟩

/-- After the upsert, looking up the upserted key yields exactly the new
row. -/
theorem upsert_findRow_self (db : DB) (row : Row) :
    findRow (upsertBooking db row) row.eventId row.bedId = some row := by
  unfold upsertBooking findRow
  by_cases h : db.any (keyMatch row.eventId row.bedId) = true
  · rw [if_pos h]
    exact upsert_map_find?_self db row h
  · rw [if_neg h, List.find?_append]
    have hnone : db.find? (keyMatch row.eventId row.bedId) = none := by
      refine List.find?_eq_none.mpr ?_
      intro x hx hpx
      exact h (List.any_eq_true.mpr ⟨x, hx, hpx⟩)
    have hrow : keyMatch row.eventId row.bedId row = true := by simp [keyMatch]
    simp [hnone, hrow]

theorem upsert_map_filter_other (db : DB) (row : Row) {e : Nat} {b : String}
    (h : ¬(row.eventId = e ∧ row.bedId = b)) :
    (db.map (fun r => if keyMatch row.eventId row.bedId r then row else r)).filter
        (keyMatch e b) = db.filter (keyMatch e b) := by
  have hkrow : ¬ keyMatch e b row = true := fun hc => h (keyMatch_eq_true.mp hc)
  induction db with
  | nil => rfl
  | cons r d ih =>
    rw [List.map_cons]
    by_cases hr : keyMatch row.eventId row.bedId r = true
    · have hkr : ¬ keyMatch e b r = true := by
        intro hc
        rcases keyMatch_eq_true.mp hr with ⟨h1, h2⟩
        rcases keyMatch_eq_true.mp hc with ⟨h3, h4⟩
        exact h ⟨h1.symm.trans h3, h2.symm.trans h4⟩
      rw [if_pos hr, List.filter_cons_of_neg hkrow, List.filter_cons_of_neg hkr, ih]
    · rw [if_neg hr]
      by_cases hk : keyMatch e b r = true
      · rw [List.filter_cons_of_pos hk, List.filter_cons_of_pos hk, ih]
      · rw [List.filter_cons_of_neg hk, List.filter_cons_of_neg hk, ih]

/-- The upsert leaves the rows of every other key untouched. -/
theorem upsert_rowsFor_other (db : DB) (row : Row) {e : Nat} {b : String}
    (h : ¬(row.eventId = e ∧ row.bedId = b)) :
    rowsFor (upsertBooking db row) e b = rowsFor db e b := by
  unfold upsertBooking rowsFor
  by_cases hany : db.any (keyMatch row.eventId row.bedId) = true
  · rw [if_pos hany]
    exact upsert_map_filter_other db row h
  · rw [if_neg hany, List.filter_append]
    have hkrow : ¬ keyMatch e b row = true := fun hc => h (keyMatch_eq_true.mp hc)
    simp [hkrow]

/-! ## Cascade lemmas -/

theorem cascadeRow_fields {e : Nat} {anchor ob kind name : String} {now : Nat}
    {row : Row} (h : cascadeRow e anchor ob kind name now = some row) :
    row.eventId = e ∧ row.bedId = ob ∧ row.blockedBy = some anchor := by
  unfold cascadeRow at h
  split_ifs at h
  all_goals
    injection h with h2
    subst h2
    exact ⟨rfl, rfl, rfl⟩

theorem applyCascade_nil (e : Nat) (anchor kind name : String) (now : Nat)
    (d : DB) : applyCascade e anchor kind name now d [] = d := rfl

theorem applyCascade_cons (e : Nat) (anchor kind name : String) (now : Nat)
    (d : DB) (ob : String) (rest : List String) :
    applyCascade e anchor kind name now d (ob :: rest)
      = applyCascade e anchor kind name now
          (cascadeStep e anchor kind name now d ob) rest := rfl

/-- One cascade iteration either leaves the state alone or appends the
restriction row for a free sibling. -/
theorem cascadeStep_eq (e : Nat) (anchor kind name : String) (now : Nat)
    (d : DB) (ob : String) :
    cascadeStep e anchor kind name now d ob = d ∨
    ∃ row, cascadeRow e anchor ob kind name now = some row ∧
      cascadeStep e anchor kind name now d ob = d ++ [row] ∧
      d.any (keyMatch e ob) = false ∧ ob ≠ anchor := by
  unfold cascadeStep
  by_cases h1 : (ob == anchor) = true
  · rw [if_pos h1]
    exact Or.inl rfl
  · rw [if_neg h1]
    by_cases h2 : d.any (keyMatch e ob) = true
    · rw [if_pos h2]
      exact Or.inl rfl
    · rw [if_neg h2]
      rcases hcr : cascadeRow e anchor ob kind name now with _ | row
      · exact Or.inl rfl
      · refine Or.inr ⟨row, rfl, rfl, Bool.eq_false_iff.mpr h2, ?_⟩
        intro hc
        exact h1 (by rw [hc]; exact beq_self_eq_true anchor)

/-- Once a sibling holds any rows, the rest of the cascade leaves those
rows exactly as they are. -/
theorem applyCascade_rowsFor_of_mem (e : Nat) (anchor kind name : String)
    (now : Nat) {s : String} :
    ∀ (beds : List String) (d : DB), rowsFor d e s ≠ [] →
      rowsFor (applyCascade e anchor kind name now d beds) e s = rowsFor d e s := by
  intro beds
  induction beds with
  | nil =>
    intro d _
    rfl
  | cons ob rest ih =>
    intro d hne
    rw [applyCascade_cons]
    rcases cascadeStep_eq e anchor kind name now d ob with heq | ⟨row, hcr, heq, hany, _⟩
    · rw [heq]
      exact ih d hne
    · rw [heq]
      have hobs : ob ≠ s := by
        intro hc
        apply hne
        rw [← hc]
        exact rowsFor_eq_nil_iff.mpr (any_keyMatch_eq_false_iff.mp hany)
      have hkrow : ¬ keyMatch e s row = true := by
        intro hc
        rcases cascadeRow_fields hcr with ⟨_, hbed, _⟩
        exact hobs (hbed ▸ (keyMatch_eq_true.mp hc).2)
      have hfilter : rowsFor (d ++ [row]) e s = rowsFor d e s := by
        unfold rowsFor
        rw [List.filter_append]
        simp [hkrow]
      have hne2 : rowsFor (d ++ [row]) e s ≠ [] := by
        rw [hfilter]
        exact hne
      rw [ih (d ++ [row]) hne2, hfilter]

/-- A free sibling in the declared room set gets exactly its restriction
row from the cascade. -/
theorem applyCascade_rowsFor_of_nil (e : Nat) (anchor kind name : String)
    (now : Nat) {s : String} {target : Row}
    (htarget : cascadeRow e anchor s kind name now = some target)
    (hsa : s ≠ anchor) :
    ∀ (beds : List String) (d : DB), s ∈ beds → rowsFor d e s = [] →
      rowsFor (applyCascade e anchor kind name now d beds) e s = [target] := by
  intro beds
  induction beds with
  | nil =>
    intro d hs
    simp at hs
  | cons ob rest ih =>
    intro d hs hnil
    rw [applyCascade_cons]
    by_cases hob : ob = s
    · subst hob
      have hkt : keyMatch e ob target = true := by
        rcases cascadeRow_fields htarget with ⟨hev, hbed, _⟩
        exact keyMatch_eq_true.mpr ⟨hev, hbed⟩
      have hstep : cascadeStep e anchor kind name now d ob = d ++ [target] := by
        unfold cascadeStep
        rw [if_neg (by simp [hsa]), if_neg (by
          intro hc
          rw [rowsFor_eq_nil_iff] at hnil
          rcases List.any_eq_true.mp hc with ⟨x, hx, hpx⟩
          exact hnil x hx (keyMatch_eq_true.mp hpx)), htarget]
      have h1 : rowsFor (d ++ [target]) e ob = [target] := by
        unfold rowsFor
        rw [List.filter_append]
        unfold rowsFor at hnil
        rw [hnil]
        simp [hkt]
      rw [hstep, applyCascade_rowsFor_of_mem e anchor kind name now rest (d ++ [target])
        (by rw [h1]; simp), h1]
    · have hs2 : s ∈ rest := by
        rcases List.mem_cons.mp hs with h1 | h2
        · exact absurd h1.symm hob
        · exact h2
      rcases cascadeStep_eq e anchor kind name now d ob with heq | ⟨row, hcr, heq, _, _⟩
      · rw [heq]
        exact ih d hs2 hnil
      · rw [heq]
        have hkrow : ¬ keyMatch e s row = true := by
          intro hc
          rcases cascadeRow_fields hcr with ⟨_, hbed, _⟩
          exact hob (hbed ▸ (keyMatch_eq_true.mp hc).2)
        have hnil2 : rowsFor (d ++ [row]) e s = [] := by
          unfold rowsFor
          rw [List.filter_append]
          unfold rowsFor at hnil
          rw [hnil]
          simp [hkrow]
        exact ih (d ++ [row]) hs2 hnil2

/-! ## Reduction lemmas for the reserve handler -/

theorem reserve_none_eq (db : DB) (e now : Nat) (bedId name : String)
    (q : ReqLogistics) (hname : jsTrim name ≠ "") :
    reserve db (some e) now bedId name none none q
      = (Resp.ok bedId name, upsertBooking db (bookedRow e bedId name now q)) := by
  simp [reserve, hname]

theorem reserve_cascade_eq (db : DB) (e now : Nat) (bedId name kind : String)
    (beds : List String) (q : ReqLogistics) (hname : jsTrim name ≠ "")
    (hkind : kind ≠ "none") :
    reserve db (some e) now bedId name (some kind) (some beds) q
      = (Resp.ok bedId name,
         applyCascade e bedId kind name now
           (upsertBooking db (bookedRow e bedId name now q)) beds) := by
  simp [reserve, hname, hkind]

/-! ## Case reductions for the handlers -/

theorem reserve_snd_blank (db : DB) (e now : Nat) (bedId name : String)
    (restriction : Option String) (roomBeds : Option (List String))
    (q : ReqLogistics) (hn : jsTrim name = "") :
    (reserve db (some e) now bedId name restriction roomBeds q).2 = db := by
  simp [reserve, hn]

theorem reserve_snd_upsert_only (db : DB) (e now : Nat) (bedId name : String)
    (q : ReqLogistics) (hn : jsTrim name ≠ "") :
    ∀ (restriction : Option String) (roomBeds : Option (List String)),
      restriction = none ∨ roomBeds = none ∨ restriction = some "none" →
      (reserve db (some e) now bedId name restriction roomBeds q).2
        = upsertBooking db (bookedRow e bedId name now q) := by
  intro restriction roomBeds hcase
  rcases restriction with _ | kind
  · simp [reserve, hn]
  · rcases roomBeds with _ | beds
    · simp [reserve, hn]
    · rcases hcase with h | h | h
      · simp at h
      · simp at h
      · injection h with h2
        subst h2
        simp [reserve, hn]

theorem claim_snd_blank (db : DB) (e now : Nat) (bedId name : String)
    (q : ReqLogistics) (hn : jsTrim name = "") :
    (claimOp db (some e) now bedId name q).2 = db := by
  simp [claimOp, hn]

/-! ## Preservation of key uniqueness by every handler -/

theorem upsert_fun_key (row x : Row) :
    ((if keyMatch row.eventId row.bedId x then row else x).eventId = x.eventId ∧
     (if keyMatch row.eventId row.bedId x then row else x).bedId = x.bedId) := by
  by_cases h : keyMatch row.eventId row.bedId x = true
  · rcases keyMatch_eq_true.mp h with ⟨h1, h2⟩
    rw [if_pos h]
    exact ⟨h1.symm, h2.symm⟩
  · rw [if_neg h]
    exact ⟨rfl, rfl⟩

theorem keysUnique_upsert (db : DB) (row : Row) (hu : KeysUnique db) :
    KeysUnique (upsertBooking db row) := by
  unfold upsertBooking
  by_cases hany : db.any (keyMatch row.eventId row.bedId) = true
  · rw [if_pos hany]
    unfold KeysUnique at hu ⊢
    rw [List.pairwise_map]
    refine hu.imp ?_
    intro a b hab
    rcases upsert_fun_key row a with ⟨ha1, ha2⟩
    rcases upsert_fun_key row b with ⟨hb1, hb2⟩
    rcases hab with h | h
    · exact Or.inl (by rw [ha1, hb1]; exact h)
    · exact Or.inr (by rw [ha2, hb2]; exact h)
  · rw [if_neg hany]
    unfold KeysUnique
    rw [List.pairwise_append]
    refine ⟨hu, List.pairwise_singleton _ _, ?_⟩
    intro a ha b hb
    rw [List.mem_singleton] at hb
    rw [hb]
    have hnk := any_keyMatch_eq_false_iff.mp (Bool.eq_false_iff.mpr hany) a ha
    by_cases h1 : a.eventId = row.eventId
    · exact Or.inr fun hc => hnk ⟨h1, hc⟩
    · exact Or.inl h1

theorem keysUnique_cascadeStep (e : Nat) (anchor kind name : String) (now : Nat)
    (d : DB) (ob : String) (hu : KeysUnique d) :
    KeysUnique (cascadeStep e anchor kind name now d ob) := by
  rcases cascadeStep_eq e anchor kind name now d ob with heq | ⟨row, hcr, heq, hany, _⟩
  · rw [heq]
    exact hu
  · rw [heq]
    unfold KeysUnique
    rw [List.pairwise_append]
    refine ⟨hu, List.pairwise_singleton _ _, ?_⟩
    intro a ha b hb
    rw [List.mem_singleton] at hb
    rw [hb]
    rcases cascadeRow_fields hcr with ⟨hev, hbed, _⟩
    have hnk := any_keyMatch_eq_false_iff.mp hany a ha
    by_cases h1 : a.eventId = e
    · refine Or.inr fun hc => hnk ⟨h1, ?_⟩
      rw [← hbed]
      exact hc
    · exact Or.inl fun hc => h1 (by rw [hc, hev])

theorem keysUnique_applyCascade (e : Nat) (anchor kind name : String) (now : Nat) :
    ∀ (beds : List String) (d : DB), KeysUnique d →
      KeysUnique (applyCascade e anchor kind name now d beds) := by
  intro beds
  induction beds with
  | nil =>
    intro d hu
    exact hu
  | cons ob rest ih =>
    intro d hu
    rw [applyCascade_cons]
    exact ih _ (keysUnique_cascadeStep e anchor kind name now d ob hu)

theorem keysUnique_reserve (db : DB) (eo : Option Nat) (now : Nat)
    (bedId name : String) (restriction : Option String)
    (roomBeds : Option (List String)) (q : ReqLogistics) (hu : KeysUnique db) :
    KeysUnique (reserve db eo now bedId name restriction roomBeds q).2 := by
  rcases eo with _ | e
  · exact hu
  · by_cases hn : jsTrim name = ""
    · rw [reserve_snd_blank db e now bedId name restriction roomBeds q hn]
      exact hu
    · have h1 : KeysUnique (upsertBooking db (bookedRow e bedId name now q)) :=
        keysUnique_upsert _ _ hu
      rcases restriction with _ | kind
      · rw [reserve_snd_upsert_only db e now bedId name q hn none roomBeds (Or.inl rfl)]
        exact h1
      · rcases roomBeds with _ | beds
        · rw [reserve_snd_upsert_only db e now bedId name q hn (some kind) none
            (Or.inr (Or.inl rfl))]
          exact h1
        · by_cases hk : kind = "none"
          · subst hk
            rw [reserve_snd_upsert_only db e now bedId name q hn (some "none")
              (some beds) (Or.inr (Or.inr rfl))]
            exact h1
          · rw [reserve_cascade_eq db e now bedId name kind beds q hn hk]
            exact keysUnique_applyCascade e bedId kind name now beds _ h1

theorem keysUnique_release (db : DB) (eo : Option Nat) (bedId : String)
    (hu : KeysUnique db) : KeysUnique (release db eo bedId).2 := by
  rcases eo with _ | e
  · exact hu
  · exact (hu.filter _).filter _

theorem keysUnique_unblock (db : DB) (eo : Option Nat) (bedId : String)
    (hu : KeysUnique db) : KeysUnique (unblock db eo bedId).2 := by
  rcases eo with _ | e
  · exact hu
  · exact hu.filter _

theorem keysUnique_claim (db : DB) (eo : Option Nat) (now : Nat)
    (bedId name : String) (q : ReqLogistics) (hu : KeysUnique db) :
    KeysUnique (claimOp db eo now bedId name q).2 := by
  rcases eo with _ | e
  · exact hu
  · by_cases hn : jsTrim name = ""
    · rw [claim_snd_blank db e now bedId name q hn]
      exact hu
    · have hop : (claimOp db (some e) now bedId name q).2
          = db.map (fun r =>
              if keyMatch e bedId r && genderRestricted r.status then
                claimUpdate name now q r
              else r) := by
        simp only [claimOp]
        rw [if_neg hn]
      rw [hop]
      unfold KeysUnique at hu ⊢
      rw [List.pairwise_map]
      refine hu.imp ?_
      intro a b hab
      have hkey : ∀ x : Row,
          ((if keyMatch e bedId x && genderRestricted x.status then
              claimUpdate name now q x else x).eventId = x.eventId ∧
           (if keyMatch e bedId x && genderRestricted x.status then
              claimUpdate name now q x else x).bedId = x.bedId) := by
        intro x
        by_cases hc : (keyMatch e bedId x && genderRestricted x.status) = true
        · rw [if_pos hc]
          exact ⟨rfl, rfl⟩
        · rw [if_neg hc]
          exact ⟨rfl, rfl⟩
      rcases hkey a with ⟨ha1, ha2⟩
      rcases hkey b with ⟨hb1, hb2⟩
      rcases hab with h | h
      · exact Or.inl (by rw [ha1, hb1]; exact h)
      · exact Or.inr (by rw [ha2, hb2]; exact h)

/-- Every reachable ledger satisfies the schema's
`UNIQUE(event_id, bed_id)` constraint. -/
theorem reachable_keysUnique {db : DB} (h : Reachable db) : KeysUnique db := by
  induction h with
  | empty => exact List.Pairwise.nil
  | reserveStep db eo now bedId name restriction roomBeds q _ ih =>
    exact keysUnique_reserve db eo now bedId name restriction roomBeds q ih
  | releaseStep db eo bedId _ ih => exact keysUnique_release db eo bedId ih
  | unblockStep db eo bedId _ ih => exact keysUnique_unblock db eo bedId ih
  | claimStep db eo now bedId name q _ ih =>
    exact keysUnique_claim db eo now bedId name q ih

/-! ## Preservation of the anchored-dependents invariant -/

theorem anchoredDeps_upsert (db : DB) (row : Row) (had : AnchoredDeps db)
    (hst : row.status = Status.booked) (hbb : row.blockedBy = none) :
    AnchoredDeps (upsertBooking db row) := by
  unfold upsertBooking
  by_cases hany : db.any (keyMatch row.eventId row.bedId) = true
  · rw [if_pos hany]
    intro x2 hx2 a hba
    rcases List.mem_map.mp hx2 with ⟨x, hx, hfx⟩
    by_cases hk : keyMatch row.eventId row.bedId x = true
    · rw [if_pos hk] at hfx
      rw [← hfx, hbb] at hba
      cases hba
    · rw [if_neg hk] at hfx
      subst hfx
      obtain ⟨r2, hr2, hev, hbed, hstat, hnone⟩ := had x hx a hba
      by_cases hk2 : keyMatch row.eventId row.bedId r2 = true
      · rcases keyMatch_eq_true.mp hk2 with ⟨h1, h2⟩
        refine ⟨row, ?_, ?_, ?_, hst, hbb⟩
        · refine List.mem_map.mpr ⟨r2, hr2, ?_⟩
          rw [if_pos hk2]
        · rw [← h1]
          exact hev
        · rw [← h2]
          exact hbed
      · refine ⟨r2, ?_, hev, hbed, hstat, hnone⟩
        refine List.mem_map.mpr ⟨r2, hr2, ?_⟩
        rw [if_neg hk2]
  · rw [if_neg hany]
    intro x2 hx2 a hba
    rcases List.mem_append.mp hx2 with hx | hx
    · obtain ⟨r2, hr2, hp⟩ := had x2 hx a hba
      exact ⟨r2, List.mem_append_left _ hr2, hp⟩
    · rw [List.mem_singleton] at hx
      rw [hx, hbb] at hba
      cases hba

theorem anchoredDeps_cascadeStep (e : Nat) (anchor kind name : String)
    (now : Nat) (d : DB) (ob : String) (had : AnchoredDeps d)
    (hanc : ∃ r2 ∈ d, r2.eventId = e ∧ r2.bedId = anchor ∧
      r2.status = Status.booked ∧ r2.blockedBy = none) :
    AnchoredDeps (cascadeStep e anchor kind name now d ob) ∧
    ∃ r2 ∈ cascadeStep e anchor kind name now d ob,
      r2.eventId = e ∧ r2.bedId = anchor ∧
      r2.status = Status.booked ∧ r2.blockedBy = none := by
  rcases cascadeStep_eq e anchor kind name now d ob with heq | ⟨row, hcr, heq, _, _⟩
  · rw [heq]
    exact ⟨had, hanc⟩
  · rw [heq]
    obtain ⟨anc, hancmem, hancp⟩ := hanc
    constructor
    · intro x hx a hba
      rcases List.mem_append.mp hx with hx | hx
      · obtain ⟨r2, hr2, hp⟩ := had x hx a hba
        exact ⟨r2, List.mem_append_left _ hr2, hp⟩
      · rw [List.mem_singleton] at hx
        rcases cascadeRow_fields hcr with ⟨hev, _, hrb⟩
        rw [hx, hrb] at hba
        injection hba with ha
        refine ⟨anc, List.mem_append_left _ hancmem, ?_, ?_, hancp.2.2⟩
        · rw [hancp.1, hx, hev]
        · rw [hancp.2.1, ha]
    · exact ⟨anc, List.mem_append_left _ hancmem, hancp⟩

theorem anchoredDeps_applyCascade (e : Nat) (anchor kind name : String)
    (now : Nat) :
    ∀ (beds : List String) (d : DB), AnchoredDeps d →
      (∃ r2 ∈ d, r2.eventId = e ∧ r2.bedId = anchor ∧
        r2.status = Status.booked ∧ r2.blockedBy = none) →
      AnchoredDeps (applyCascade e anchor kind name now d beds) := by
  intro beds
  induction beds with
  | nil =>
    intro d had _
    exact had
  | cons ob rest ih =>
    intro d had hanc
    rw [applyCascade_cons]
    rcases anchoredDeps_cascadeStep e anchor kind name now d ob had hanc with ⟨h1, h2⟩
    exact ih _ h1 h2

theorem anchoredDeps_reserve (db : DB) (eo : Option Nat) (now : Nat)
    (bedId name : String) (restriction : Option String)
    (roomBeds : Option (List String)) (q : ReqLogistics)
    (had : AnchoredDeps db) :
    AnchoredDeps (reserve db eo now bedId name restriction roomBeds q).2 := by
  rcases eo with _ | e
  · exact had
  · by_cases hn : jsTrim name = ""
    · rw [reserve_snd_blank db e now bedId name restriction roomBeds q hn]
      exact had
    · have h1 : AnchoredDeps (upsertBooking db (bookedRow e bedId name now q)) :=
        anchoredDeps_upsert db _ had rfl rfl
      have hanc : ∃ r2 ∈ upsertBooking db (bookedRow e bedId name now q),
          r2.eventId = e ∧ r2.bedId = bedId ∧
          r2.status = Status.booked ∧ r2.blockedBy = none := by
        refine ⟨bookedRow e bedId name now q, ?_, rfl, rfl, rfl, rfl⟩
        exact (findRow_mem (upsert_findRow_self db (bookedRow e bedId name now q))).1
      rcases restriction with _ | kind
      · rw [reserve_snd_upsert_only db e now bedId name q hn none roomBeds (Or.inl rfl)]
        exact h1
      · rcases roomBeds with _ | beds
        · rw [reserve_snd_upsert_only db e now bedId name q hn (some kind) none
            (Or.inr (Or.inl rfl))]
          exact h1
        · by_cases hk : kind = "none"
          · subst hk
            rw [reserve_snd_upsert_only db e now bedId name q hn (some "none")
              (some beds) (Or.inr (Or.inr rfl))]
            exact h1
          · rw [reserve_cascade_eq db e now bedId name kind beds q hn hk]
            exact anchoredDeps_applyCascade e bedId kind name now beds _ h1 hanc

theorem anchoredDeps_release (db : DB) (eo : Option Nat) (bedId : String)
    (had : AnchoredDeps db) : AnchoredDeps (release db eo bedId).2 := by
  rcases eo with _ | e
  · exact had
  · intro x hx a hba
    rcases List.mem_filter.mp hx with ⟨hx1, hpass2⟩
    rcases List.mem_filter.mp hx1 with ⟨hxdb, hpass1⟩
    obtain ⟨r2, hr2, hev, hbed, hstat, hnone⟩ := had x hxdb a hba
    refine ⟨r2, ?_, hev, hbed, hstat, hnone⟩
    refine List.mem_filter.mpr ⟨List.mem_filter.mpr ⟨hr2, by simp [hnone]⟩, ?_⟩
    by_cases h1 : r2.eventId = e
    · have h2 : r2.bedId ≠ bedId := by
        intro hc
        have hxe : x.eventId = e := by rw [← hev]; exact h1
        have hxbb : x.blockedBy = some bedId := by
          rw [hba, ← hc, hbed]
        simp [hxe, hxbb] at hpass1
      simp [h2]
    · simp [h1]

theorem anchoredDeps_unblock (db : DB) (eo : Option Nat) (bedId : String)
    (had : AnchoredDeps db) : AnchoredDeps (unblock db eo bedId).2 := by
  rcases eo with _ | e
  · exact had
  · intro x hx a hba
    rcases List.mem_filter.mp hx with ⟨hxdb, _⟩
    obtain ⟨r2, hr2, hev, hbed, hstat, hnone⟩ := had x hxdb a hba
    refine ⟨r2, ?_, hev, hbed, hstat, hnone⟩
    refine List.mem_filter.mpr ⟨hr2, ?_⟩
    simp [hstat, restrictedStatus]

theorem anchoredDeps_claim (db : DB) (eo : Option Nat) (now : Nat)
    (bedId name : String) (q : ReqLogistics) (had : AnchoredDeps db) :
    AnchoredDeps (claimOp db eo now bedId name q).2 := by
  rcases eo with _ | e
  · exact had
  · by_cases hn : jsTrim name = ""
    · rw [claim_snd_blank db e now bedId name q hn]
      exact had
    · have hop : (claimOp db (some e) now bedId name q).2
          = db.map (fun r =>
              if keyMatch e bedId r && genderRestricted r.status then
                claimUpdate name now q r
              else r) := by
        simp only [claimOp]
        rw [if_neg hn]
      rw [hop]
      intro x2 hx2 a hba
      rcases List.mem_map.mp hx2 with ⟨x, hx, hfx⟩
      have hbbx : x2.blockedBy = x.blockedBy := by
        rw [← hfx]
        by_cases hc : (keyMatch e bedId x && genderRestricted x.status) = true
        · rw [if_pos hc]
          rfl
        · rw [if_neg hc]
      rw [hbbx] at hba
      obtain ⟨r2, hr2, hev, hbed, hstat, hnone⟩ := had x hx a hba
      have hfr2 : (if keyMatch e bedId r2 && genderRestricted r2.status then
          claimUpdate name now q r2 else r2) = r2 := by
        rw [if_neg (by simp [hstat, genderRestricted])]
      refine ⟨r2, ?_, ?_, hbed, hstat, hnone⟩
      · refine List.mem_map.mpr ⟨r2, hr2, hfr2⟩
      · rw [hev, ← hfx]
        by_cases hc : (keyMatch e bedId x && genderRestricted x.status) = true
        · rw [if_pos hc]
          rfl
        · rw [if_neg hc]

/-- Every reachable ledger satisfies the anchored-dependents invariant:
each blocking relation points at a live booked anchor row of the same
event. -/
theorem reachable_anchoredDeps {db : DB} (h : Reachable db) : AnchoredDeps db := by
  induction h with
  | empty =>
    intro r hr
    simp at hr
  | reserveStep db eo now bedId name restriction roomBeds q _ ih =>
    exact anchoredDeps_reserve db eo now bedId name restriction roomBeds q ih
  | releaseStep db eo bedId _ ih => exact anchoredDeps_release db eo bedId ih
  | unblockStep db eo bedId _ ih => exact anchoredDeps_unblock db eo bedId ih
  | claimStep db eo now bedId name q _ ih =>
    exact anchoredDeps_claim db eo now bedId name q ih

/-! ## Lemmas for the claim endpoint -/

/-- `find?` through a key-preserving row transformation. -/
theorem find?_map_keyPreserving (db : DB) (e : Nat) (b : String) (f : Row → Row)
    (hpres : ∀ x, keyMatch e b (f x) = keyMatch e b x) {r : Row}
    (h : db.find? (keyMatch e b) = some r) :
    (db.map f).find? (keyMatch e b) = some (f r) := by
  induction db with
  | nil => simp at h
  | cons x d ih =>
    by_cases hx : keyMatch e b x = true
    · rw [List.find?_cons_of_pos _ hx] at h
      injection h with h2
      subst h2
      rw [List.map_cons]
      exact List.find?_cons_of_pos _ ((hpres x).trans hx)
    · rw [List.find?_cons_of_neg _ hx] at h
      rw [List.map_cons, List.find?_cons_of_neg _ (by rw [hpres x]; exact hx)]
      exact ih h

theorem claimUpdate_keyMatch (e : Nat) (b : String) (name : String) (now : Nat)
    (q : ReqLogistics) (x : Row) :
    keyMatch e b (claimUpdate name now q x) = keyMatch e b x := rfl

/-! ## Lemmas for the transactional model of reserve -/

theorem reserve_fst_ok (db : DB) (e now : Nat) (bedId name : String)
    (restriction : Option String) (roomBeds : Option (List String))
    (q : ReqLogistics) (hn : jsTrim name ≠ "") :
    (reserve db (some e) now bedId name restriction roomBeds q).1
      = Resp.ok bedId name := by
  simp [reserve, hn]

theorem cascadeTxGo_cons (e : Nat) (anchor kind name : String) (now : Nat)
    (ob : String) (rest : List String) (d : DB) (fl : List Bool) :
    cascadeTxGo e anchor kind name now (ob :: rest) d fl
      = (if ob == anchor then cascadeTxGo e anchor kind name now rest d fl
         else
           let (f, fl1) := takeFlag fl
           if f then none
           else if d.any (keyMatch e ob) then
             cascadeTxGo e anchor kind name now rest d fl1
           else
             match cascadeRow e anchor ob kind name now with
             | none => cascadeTxGo e anchor kind name now rest d fl1
             | some row =>
               let (f2, fl2) := takeFlag fl1
               if f2 then none
               else cascadeTxGo e anchor kind name now rest (d ++ [row]) fl2) := rfl

/-- With an empty failure schedule every storage call succeeds and the
transactional cascade loop computes exactly the pure cascade. -/
theorem cascadeTxGo_nil_flags (e : Nat) (anchor kind name : String) (now : Nat) :
    ∀ (beds : List String) (d : DB),
      cascadeTxGo e anchor kind name now beds d []
        = some (applyCascade e anchor kind name now d beds, []) := by
  intro beds
  induction beds with
  | nil =>
    intro d
    rfl
  | cons ob rest ih =>
    intro d
    rw [applyCascade_cons]
    by_cases h1 : (ob == anchor) = true
    · have hstep : cascadeStep e anchor kind name now d ob = d := by
        unfold cascadeStep
        rw [if_pos h1]
      rw [hstep]
      show cascadeTxGo e anchor kind name now (ob :: rest) d [] = _
      unfold cascadeTxGo
      rw [if_pos h1]
      exact ih d
    · show cascadeTxGo e anchor kind name now (ob :: rest) d [] = _
      unfold cascadeTxGo
      rw [if_neg h1]
      simp only [takeFlag]
      rw [if_neg (by simp)]
      by_cases h2 : d.any (keyMatch e ob) = true
      · have hstep : cascadeStep e anchor kind name now d ob = d := by
          unfold cascadeStep
          rw [if_neg h1, if_pos h2]
        rw [if_pos h2, hstep]
        exact ih d
      · rw [if_neg h2]
        rcases hcr : cascadeRow e anchor ob kind name now with _ | row
        · have hstep : cascadeStep e anchor kind name now d ob = d := by
            unfold cascadeStep
            rw [if_neg h1, if_neg h2, hcr]
          rw [hstep]
          exact ih d
        · have hstep : cascadeStep e anchor kind name now d ob = d ++ [row] := by
            unfold cascadeStep
            rw [if_neg h1, if_neg h2, hcr]
          rw [hstep]
          simp only [takeFlag]
          rw [if_neg (by simp)]
          exact ih (d ++ [row])

/-- The transactional cascade loop either aborts or computes exactly the
pure cascade. -/
theorem cascadeTxGo_spec (e : Nat) (anchor kind name : String) (now : Nat) :
    ∀ (beds : List String) (d : DB) (fl : List Bool),
      cascadeTxGo e anchor kind name now beds d fl = none ∨
      ∃ fl2, cascadeTxGo e anchor kind name now beds d fl
        = some (applyCascade e anchor kind name now d beds, fl2) := by
  intro beds
  induction beds with
  | nil =>
    intro d fl
    exact Or.inr ⟨fl, rfl⟩
  | cons ob rest ih =>
    intro d fl
    by_cases h1 : (ob == anchor) = true
    · have hstep : cascadeStep e anchor kind name now d ob = d := by
        unfold cascadeStep
        rw [if_pos h1]
      rw [cascadeTxGo_cons, if_pos h1, applyCascade_cons, hstep]
      exact ih d fl
    · rcases htf : takeFlag fl with ⟨f, fl1⟩
      have hred : cascadeTxGo e anchor kind name now (ob :: rest) d fl
          = (if f then none
             else if d.any (keyMatch e ob) then
               cascadeTxGo e anchor kind name now rest d fl1
             else
               match cascadeRow e anchor ob kind name now with
               | none => cascadeTxGo e anchor kind name now rest d fl1
               | some row =>
                 let (f2, fl2) := takeFlag fl1
                 if f2 then none
                 else cascadeTxGo e anchor kind name now rest (d ++ [row]) fl2) := by
        rw [cascadeTxGo_cons, if_neg h1, htf]
      rw [hred, applyCascade_cons]
      cases f with
      | true =>
        rw [if_pos rfl]
        exact Or.inl rfl
      | false =>
        rw [if_neg (by simp)]
        by_cases h2 : d.any (keyMatch e ob) = true
        · have hstep : cascadeStep e anchor kind name now d ob = d := by
            unfold cascadeStep
            rw [if_neg h1, if_pos h2]
          rw [if_pos h2, hstep]
          exact ih d fl1
        · rw [if_neg h2]
          rcases hcr : cascadeRow e anchor ob kind name now with _ | row
          · have hstep : cascadeStep e anchor kind name now d ob = d := by
              unfold cascadeStep
              rw [if_neg h1, if_neg h2, hcr]
            rw [hstep]
            exact ih d fl1
          · have hstep : cascadeStep e anchor kind name now d ob = d ++ [row] := by
              unfold cascadeStep
              rw [if_neg h1, if_neg h2, hcr]
            rw [hstep]
            rcases htf2 : takeFlag fl1 with ⟨f2, fl2⟩
            cases f2 with
            | true => exact Or.inl rfl
            | false => exact ih (d ++ [row]) fl2

theorem reserveTxCore_spec (db : DB) (fails : List Bool) (e now : Nat)
    (bedId name : String) (q : ReqLogistics)
    (casc : Option (String × List String)) :
    reserveTxCore db fails e now bedId name casc q = (Resp.serverError, db) ∨
    reserveTxCore db fails e now bedId name casc q
      = (Resp.ok bedId name,
         match casc with
         | some (kind, beds) =>
           applyCascade e bedId kind name now
             (upsertBooking db (bookedRow e bedId name now q)) beds
         | none => upsertBooking db (bookedRow e bedId name now q)) := by
  rcases casc with _ | ⟨kind, beds⟩
  · rcases fails with _ | ⟨f0, r0⟩
    · exact Or.inr rfl
    · cases f0 with
      | true => exact Or.inl rfl
      | false =>
        rcases r0 with _ | ⟨f1, r1⟩
        · exact Or.inr rfl
        · cases f1 with
          | true => exact Or.inl rfl
          | false =>
            rcases r1 with _ | ⟨f2, r2⟩
            · exact Or.inr rfl
            · cases f2 with
              | true => exact Or.inl rfl
              | false => exact Or.inr rfl
  · rcases fails with _ | ⟨f0, r0⟩
    · refine Or.inr ?_
      show (match cascadeTxGo e bedId kind name now beds
              (upsertBooking db (bookedRow e bedId name now q)) [] with
            | none => (Resp.serverError, db)
            | some (db2, fl2) =>
              match takeFlag fl2 with
              | (fCommit, _) =>
                if fCommit then (Resp.serverError, db)
                else (Resp.ok bedId name, db2))
          = (Resp.ok bedId name, applyCascade e bedId kind name now
              (upsertBooking db (bookedRow e bedId name now q)) beds)
      rw [cascadeTxGo_nil_flags]
      rfl
    · cases f0 with
      | true => exact Or.inl rfl
      | false =>
        rcases r0 with _ | ⟨f1, r1⟩
        · refine Or.inr ?_
          show (match cascadeTxGo e bedId kind name now beds
                  (upsertBooking db (bookedRow e bedId name now q)) [] with
                | none => (Resp.serverError, db)
                | some (db2, fl2) =>
                  match takeFlag fl2 with
                  | (fCommit, _) =>
                    if fCommit then (Resp.serverError, db)
                    else (Resp.ok bedId name, db2))
              = (Resp.ok bedId name, applyCascade e bedId kind name now
                  (upsertBooking db (bookedRow e bedId name now q)) beds)
          rw [cascadeTxGo_nil_flags]
          rfl
        · cases f1 with
          | true => exact Or.inl rfl
          | false =>
            rcases cascadeTxGo_spec e bedId kind name now beds
                (upsertBooking db (bookedRow e bedId name now q)) r1
              with hnone | ⟨fl2c, hsome⟩
            · refine Or.inl ?_
              show (match cascadeTxGo e bedId kind name now beds
                      (upsertBooking db (bookedRow e bedId name now q)) r1 with
                    | none => (Resp.serverError, db)
                    | some (db2, fl2) =>
                      match takeFlag fl2 with
                      | (fCommit, _) =>
                        if fCommit then (Resp.serverError, db)
                        else (Resp.ok bedId name, db2))
                  = (Resp.serverError, db)
              rw [hnone]
            · rcases htf2 : takeFlag fl2c with ⟨f2, fl2v⟩
              have hshape : reserveTxCore db (false :: false :: r1) e now bedId name
                  (some (kind, beds)) q
                    = (match takeFlag fl2c with
                       | (fCommit, _) =>
                         if fCommit then (Resp.serverError, db)
                         else (Resp.ok bedId name, applyCascade e bedId kind name now
                           (upsertBooking db (bookedRow e bedId name now q)) beds)) := by
                show (match cascadeTxGo e bedId kind name now beds
                        (upsertBooking db (bookedRow e bedId name now q)) r1 with
                      | none => (Resp.serverError, db)
                      | some (db2, fl2) =>
                        match takeFlag fl2 with
                        | (fCommit, _) =>
                          if fCommit then (Resp.serverError, db)
                          else (Resp.ok bedId name, db2)) = _
                rw [hsome]
              rw [hshape, htf2]
              cases f2 with
              | true => exact Or.inl rfl
              | false => exact Or.inr rfl

theorem reserveTxCore_nil_flags (db : DB) (e now : Nat) (bedId name : String)
    (q : ReqLogistics) (casc : Option (String × List String)) :
    reserveTxCore db [] e now bedId name casc q
      = (Resp.ok bedId name,
         match casc with
         | some (kind, beds) =>
           applyCascade e bedId kind name now
             (upsertBooking db (bookedRow e bedId name now q)) beds
         | none => upsertBooking db (bookedRow e bedId name now q)) := by
  rcases casc with _ | ⟨kind, beds⟩
  · rfl
  · have hred : reserveTxCore db [] e now bedId name (some (kind, beds)) q
        = (match cascadeTxGo e bedId kind name now beds
              (upsertBooking db (bookedRow e bedId name now q)) [] with
           | none => (Resp.serverError, db)
           | some (db2, fl2) =>
             let (fCommit, _) := takeFlag fl2
             if fCommit then (Resp.serverError, db)
             else (Resp.ok bedId name, db2)) := rfl
    rw [hred, cascadeTxGo_nil_flags e bedId kind name now beds _]
    rfl

/-- The pure reserve result, phrased through the evaluated cascade guard
(the shape `reserveTxCore` commits). -/
theorem reserve_eq_committed (db : DB) (e now : Nat) (bedId name : String)
    (restriction : Option String) (roomBeds : Option (List String))
    (q : ReqLogistics) (hn : jsTrim name ≠ "") :
    reserve db (some e) now bedId name restriction roomBeds q
      = (Resp.ok bedId name,
         match (match restriction, roomBeds with
                | some kind, some beds =>
                  if kind ≠ "none" then some (kind, beds) else none
                | _, _ => none : Option (String × List String)) with
         | some (kind, beds) =>
           applyCascade e bedId kind name now
             (upsertBooking db (bookedRow e bedId name now q)) beds
         | none => upsertBooking db (bookedRow e bedId name now q)) := by
  rcases restriction with _ | kind
  · exact Prod.ext_iff.mpr
      ⟨reserve_fst_ok db e now bedId name none roomBeds q hn,
       reserve_snd_upsert_only db e now bedId name q hn none roomBeds (Or.inl rfl)⟩
  · rcases roomBeds with _ | beds
    · exact Prod.ext_iff.mpr
        ⟨reserve_fst_ok db e now bedId name (some kind) none q hn,
         reserve_snd_upsert_only db e now bedId name q hn (some kind) none
           (Or.inr (Or.inl rfl))⟩
    · by_cases hk : kind = "none"
      · subst hk
        exact Prod.ext_iff.mpr
          ⟨reserve_fst_ok db e now bedId name (some "none") (some beds) q hn,
           reserve_snd_upsert_only db e now bedId name q hn (some "none")
             (some beds) (Or.inr (Or.inr rfl))⟩
      · rw [reserve_cascade_eq db e now bedId name kind beds q hn hk]
        show _ = (Resp.ok bedId name,
          match (if kind ≠ "none" then some (kind, beds)
                 else none : Option (String × List String)) with
          | some (kind, beds) =>
            applyCascade e bedId kind name now
              (upsertBooking db (bookedRow e bedId name now q)) beds
          | none => upsertBooking db (bookedRow e bedId name now q))
        rw [if_pos hk]

/-- C7: Reserve together with its restriction cascade is one atomic unit:
whatever storage calls fail, the outcome is either the fully committed
pure result or, on a storage error anywhere in the unit, a full rollback —
the ledger unchanged and the caller receiving the generic failure; with no
storage failure the transaction commits the pure result; a failure at the
very first storage call always rolls back. A partially applied
Reserve+cascade is never observable. -/
theorem c7_reserve_atomic (db : DB) (fails : List Bool) (eo : Option Nat)
    (now : Nat) (bedId name : String) (restriction : Option String)
    (roomBeds : Option (List String)) (q : ReqLogistics) :
    (reserveTx db fails eo now bedId name restriction roomBeds q
       = (Resp.serverError, db) ∨
     reserveTx db fails eo now bedId name restriction roomBeds q
       = reserve db eo now bedId name restriction roomBeds q) ∧
    (reserveTx db [] eo now bedId name restriction roomBeds q
       = reserve db eo now bedId name restriction roomBeds q) ∧
    (∀ (e : Nat) (fl : List Bool), eo = some e → jsTrim name ≠ "" →
       reserveTx db (true :: fl) eo now bedId name restriction roomBeds q
         = (Resp.serverError, db)) := by
  refine ⟨?_, ?_, ?_⟩
  · rcases eo with _ | e
    · exact Or.inr rfl
    · by_cases hn : jsTrim name = ""
      · refine Or.inr ?_
        simp [reserveTx, reserve, hn]
      · have hwrap : reserveTx db fails (some e) now bedId name restriction roomBeds q
            = reserveTxCore db fails e now bedId name
                (match restriction, roomBeds with
                 | some kind, some beds =>
                   if kind ≠ "none" then some (kind, beds) else none
                 | _, _ => none) q := by
          simp only [reserveTx]
          rw [if_neg hn]
        rw [hwrap, reserve_eq_committed db e now bedId name restriction roomBeds q hn]
        exact reserveTxCore_spec db fails e now bedId name q _
  · rcases eo with _ | e
    · rfl
    · by_cases hn : jsTrim name = ""
      · simp [reserveTx, reserve, hn]
      · have hwrap : reserveTx db [] (some e) now bedId name restriction roomBeds q
            = reserveTxCore db [] e now bedId name
                (match restriction, roomBeds with
                 | some kind, some beds =>
                   if kind ≠ "none" then some (kind, beds) else none
                 | _, _ => none) q := by
          simp only [reserveTx]
          rw [if_neg hn]
        rw [hwrap, reserve_eq_committed db e now bedId name restriction roomBeds q hn]
        exact reserveTxCore_nil_flags db e now bedId name q _
  · intro e2 fl heo hn
    subst heo
    have hwrap : reserveTx db (true :: fl) (some e2) now bedId name restriction roomBeds q
        = reserveTxCore db (true :: fl) e2 now bedId name
            (match restriction, roomBeds with
             | some kind, some beds =>
               if kind ≠ "none" then some (kind, beds) else none
             | _, _ => none) q := by
      simp only [reserveTx]
      rw [if_neg hn]
    rw [hwrap]
    rfl

/-- Witness for C7: a failing `BEGIN` rolls the whole unit back on a
concrete input. -/
theorem c7_reserve_atomic_witness :
    reserveTx [] [true] (some 1) 0 "B1" "Al" (some "blocked")
        (some ["B1", "B2"]) noReq
      = (Resp.serverError, []) ∧
    reserveTx [] [] (some 1) 0 "B1" "Al" (some "blocked")
        (some ["B1", "B2"]) noReq
      = reserve [] (some 1) 0 "B1" "Al" (some "blocked") (some ["B1", "B2"]) noReq := by
  have h := c7_reserve_atomic [] [] (some 1) 0 "B1" "Al" (some "blocked")
    (some ["B1", "B2"]) noReq
  exact ⟨h.2.2 1 [] rfl (by decide), h.2.1⟩

/-! ## No-op lemmas for idempotent deletes -/

theorem unblock_noop (db : DB) (e : Nat) (bedId : String)
    (h : ∀ x ∈ db, ¬(x.eventId = e ∧ x.bedId = bedId ∧
      restrictedStatus x.status = true)) :
    unblock db (some e) bedId = (Resp.okDelete bedId, db) := by
  simp only [unblock]
  have hf : db.filter
      (fun r => !(keyMatch e bedId r && restrictedStatus r.status)) = db := by
    refine List.filter_eq_self.mpr ?_
    intro x hx
    by_cases hk : keyMatch e bedId x = true
    · rcases keyMatch_eq_true.mp hk with ⟨h1, h2⟩
      have h3 : restrictedStatus x.status ≠ true := fun hc => h x hx ⟨h1, h2, hc⟩
      simp [h3]
    · simp [hk]
  rw [hf]

theorem release_noop (db : DB) (e : Nat) (bedId : String)
    (hkey : ∀ x ∈ db, ¬(x.eventId = e ∧ x.bedId = bedId))
    (hdep : ∀ x ∈ db, ¬(x.eventId = e ∧ x.blockedBy = some bedId)) :
    release db (some e) bedId = (Resp.okDelete bedId, db) := by
  simp only [release]
  have h1 : db.filter
      (fun r => !(r.eventId == e && r.blockedBy == some bedId)) = db := by
    refine List.filter_eq_self.mpr ?_
    intro x hx
    by_cases hev : x.eventId = e
    · have h2 : x.blockedBy ≠ some bedId := fun hc => hdep x hx ⟨hev, hc⟩
      simp [h2]
    · simp [hev]
  rw [h1]
  have h2 : db.filter (fun r => !(r.eventId == e && r.bedId == bedId)) = db := by
    refine List.filter_eq_self.mpr ?_
    intro x hx
    by_cases hev : x.eventId = e
    · have h3 : x.bedId ≠ bedId := fun hc => hkey x hx ⟨hev, hc⟩
      simp [h3]
    · simp [hev]
  rw [h2]

/-! ## Generic filter lemmas for event isolation -/

theorem filter_append_none {α : Type} (p : α → Bool) (l ext : List α)
    (h : ∀ a ∈ ext, ¬ p a = true) : (l ++ ext).filter p = l.filter p := by
  rw [List.filter_append]
  have hnil : ext.filter p = [] := List.filter_eq_nil_iff.mpr h
  rw [hnil, List.append_nil]

theorem filter_of_filter {α : Type} (p q : α → Bool) (l : List α)
    (h : ∀ a, p a = true → q a = true) : (l.filter q).filter p = l.filter p := by
  rw [List.filter_filter]
  refine List.filter_congr ?_
  intro a _
  by_cases hp : p a = true
  · rw [hp, h a hp]
    rfl
  · rw [Bool.eq_false_iff.mpr hp]
    rfl

theorem filter_map_invariant {α : Type} (p : α → Bool) (f : α → α) (l : List α)
    (hp : ∀ a, p (f a) = p a) (hfix : ∀ a, p a = true → f a = a) :
    (l.map f).filter p = l.filter p := by
  induction l with
  | nil => rfl
  | cons x d ih =>
    rw [List.map_cons]
    by_cases hx : p x = true
    · rw [hfix x hx, List.filter_cons_of_pos hx, List.filter_cons_of_pos hx, ih]
    · have hfx : ¬ p (f x) = true := by
        rw [hp x]
        exact hx
      rw [List.filter_cons_of_neg hfx, List.filter_cons_of_neg hx, ih]

/-- Rows of other events survive the primary upsert untouched. -/
theorem upsert_filterNot (db : DB) (row : Row) (e : Nat)
    (hrow : row.eventId = e) :
    ((upsertBooking db row).filter (fun r => !(r.eventId == e)))
      = db.filter (fun r => !(r.eventId == e)) := by
  unfold upsertBooking
  by_cases hany : db.any (keyMatch row.eventId row.bedId) = true
  · rw [if_pos hany]
    refine filter_map_invariant _ _ _ ?_ ?_
    · intro a
      have := (upsert_fun_key row a).1
      simp [this]
    · intro a ha
      have hae : a.eventId ≠ e := by simpa using ha
      rw [if_neg (fun hc => hae (by rw [(keyMatch_eq_true.mp hc).1, hrow]))]
  · rw [if_neg hany]
    refine filter_append_none _ _ _ ?_
    intro a ha
    rw [List.mem_singleton] at ha
    rw [ha]
    simp [hrow]

/-- Rows of other events survive the cascade untouched. -/
theorem applyCascade_filterNot (e : Nat) (anchor kind name : String)
    (now : Nat) :
    ∀ (beds : List String) (d : DB),
      ((applyCascade e anchor kind name now d beds).filter
        (fun r => !(r.eventId == e)))
      = d.filter (fun r => !(r.eventId == e)) := by
  intro beds
  induction beds with
  | nil =>
    intro d
    rfl
  | cons ob rest ih =>
    intro d
    rw [applyCascade_cons]
    rcases cascadeStep_eq e anchor kind name now d ob with heq | ⟨row, hcr, heq, _, _⟩
    · rw [heq]
      exact ih d
    · rw [heq, ih (d ++ [row])]
      refine filter_append_none _ _ _ ?_
      intro a ha
      rw [List.mem_singleton] at ha
      rw [ha]
      simp [(cascadeRow_fields hcr).1]

/-! ## Claim theorems -/

/-- C5: for every Reserve with non-empty trimmed name (and no
restriction), the Bed Slot at `(e, bedId)` afterwards is exactly the fully
booked row: status `booked`, blocking relation `none`, booked-at `now`,
and every logistics field equal to the defaulted request value — a full
overwrite independent of any prior slot; `List(e)` then contains that
booked row. -/
theorem c5_reserve_full_overwrite (db : DB) (e now : Nat) (bedId name : String)
    (q : ReqLogistics) (hname : jsTrim name ≠ "") :
    (reserve db (some e) now bedId name none none q).1 = Resp.ok bedId name ∧
    findRow (reserve db (some e) now bedId name none none q).2 e bedId
      = some (bookedRow e bedId name now q) ∧
    (bookedRow e bedId name now q).status = Status.booked ∧
    (bookedRow e bedId name now q).blockedBy = none ∧
    (bookedRow e bedId name now q).bookedAt = now ∧
    (bookedRow e bedId name now q).name = jsTrim name ∧
    (bookedRow e bedId name now q).lg = reqLogistics q ∧
    (∃ l, listBookings (reserve db (some e) now bedId name none none q).2 (some e)
        = some l ∧ bookedRow e bedId name now q ∈ l) := by
  rw [reserve_none_eq db e now bedId name q hname]
  refine ⟨rfl, upsert_findRow_self db (bookedRow e bedId name now q), rfl, rfl, rfl, rfl, rfl, ?_⟩
  refine ⟨_, rfl, ?_⟩
  have hmem := (findRow_mem (upsert_findRow_self db (bookedRow e bedId name now q))).1
  exact List.mem_filter.mpr ⟨hmem, by simp [bookedRow]⟩

/-- Witness for C5 at a concrete input. -/
theorem c5_reserve_full_overwrite_witness :
    findRow (reserve [] (some 1) 7 "B1" " Alice " none none noReq).2 1 "B1"
      = some (bookedRow 1 "B1" " Alice " 7 noReq) ∧
    (bookedRow 1 "B1" " Alice " 7 noReq).status = Status.booked ∧
    (bookedRow 1 "B1" " Alice " 7 noReq).blockedBy = none := by
  obtain ⟨_, h2, h3, h4, _⟩ :=
    c5_reserve_full_overwrite [] 1 7 "B1" " Alice " noReq (by decide)
  exact ⟨h2, h3, h4⟩

/-- C4: a direct Reserve onto a bed whose slot is currently `women_only`,
`men_only` or `blocked` succeeds (no status precondition) and silently
overwrites the restriction: the slot becomes `booked` with the new
occupant name and a cleared blocking relation. -/
theorem c4_reserve_overwrites_restriction (db : DB) (e now : Nat)
    (bedId name : String) (q : ReqLogistics) (r : Row)
    (hfind : findRow db e bedId = some r)
    (hst : r.status = Status.women_only ∨ r.status = Status.men_only ∨
           r.status = Status.blocked)
    (hname : jsTrim name ≠ "") :
    (reserve db (some e) now bedId name none none q).1 = Resp.ok bedId name ∧
    findRow (reserve db (some e) now bedId name none none q).2 e bedId
      = some (bookedRow e bedId name now q) ∧
    (bookedRow e bedId name now q).status = Status.booked ∧
    (bookedRow e bedId name now q).name = jsTrim name ∧
    (bookedRow e bedId name now q).blockedBy = none := by
  rw [reserve_none_eq db e now bedId name q hname]
  exact ⟨rfl, upsert_findRow_self db (bookedRow e bedId name now q), rfl, rfl, rfl⟩

/-- Witness for C4 at a concrete input: reserving over a `women_only`
slot. -/
theorem c4_reserve_overwrites_restriction_witness :
    findRow (reserve
        [{ eventId := 1, bedId := "B2", name := "♀️ Frauenzimmer", bookedAt := 0,
           status := Status.women_only, blockedBy := some "B1",
           lg := defaultLogistics }]
        (some 1) 9 "B2" "Eve" none none noReq).2 1 "B2"
      = some (bookedRow 1 "B2" "Eve" 9 noReq) ∧
    (bookedRow 1 "B2" "Eve" 9 noReq).status = Status.booked ∧
    (bookedRow 1 "B2" "Eve" 9 noReq).blockedBy = none := by
  obtain ⟨_, h2, h3, _, h5⟩ :=
    c4_reserve_overwrites_restriction
      [{ eventId := 1, bedId := "B2", name := "♀️ Frauenzimmer", bookedAt := 0,
         status := Status.women_only, blockedBy := some "B1",
         lg := defaultLogistics }]
      1 9 "B2" "Eve" noReq
      { eventId := 1, bedId := "B2", name := "♀️ Frauenzimmer", bookedAt := 0,
        status := Status.women_only, blockedBy := some "B1",
        lg := defaultLogistics }
      (by decide) (Or.inl rfl) (by decide)
  exact ⟨h2, h3, h5⟩

/-- C1: for a Reserve with restriction kind `blocked`/`women`/`men` and
sibling set `beds`, every sibling `s ≠ bedId`: if no Bed Slot currently
exists for `s`, exactly one is created, with status and display name
determined by the kind and blocking relation = the anchor bed id; if `s`
already holds any Bed Slot, its rows are left completely unchanged. -/
theorem c1_cascade_iff (db : DB) (e now : Nat) (bedId name kind : String)
    (beds : List String) (q : ReqLogistics) (s : String)
    (hname : jsTrim name ≠ "")
    (hkind : kind = "blocked" ∨ kind = "women" ∨ kind = "men")
    (hs : s ∈ beds) (hsb : s ≠ bedId) :
    ((∀ r ∈ db, ¬(r.eventId = e ∧ r.bedId = s)) →
      ∃ row,
        rowsFor (reserve db (some e) now bedId name (some kind) (some beds) q).2 e s
          = [row] ∧
        findRow (reserve db (some e) now bedId name (some kind) (some beds) q).2 e s
          = some row ∧
        row.blockedBy = some bedId ∧
        (kind = "blocked" →
           row.status = Status.blocked ∧ row.name = "🔒 " ++ jsTrim name) ∧
        (kind = "women" →
           row.status = Status.women_only ∧ row.name = "♀️ Frauenzimmer") ∧
        (kind = "men" →
           row.status = Status.men_only ∧ row.name = "♂️ Männerzimmer")) ∧
    ((∃ r ∈ db, r.eventId = e ∧ r.bedId = s) →
      rowsFor (reserve db (some e) now bedId name (some kind) (some beds) q).2 e s
        = rowsFor db e s) := by
  have hnone : kind ≠ "none" := by
    rcases hkind with h | h | h <;> (subst h; decide)
  have hres := reserve_cascade_eq db e now bedId name kind beds q hname hnone
  have hkeyrow : ¬((bookedRow e bedId name now q).eventId = e ∧
      (bookedRow e bedId name now q).bedId = s) := by
    intro hc
    exact hsb (hc.2.symm)
  constructor
  · intro hfree
    have hnil : rowsFor db e s = [] := rowsFor_eq_nil_iff.mpr hfree
    have hnil1 : rowsFor (upsertBooking db (bookedRow e bedId name now q)) e s = [] := by
      rw [upsert_rowsFor_other db _ hkeyrow]
      exact hnil
    obtain ⟨target, htarget⟩ : ∃ t, cascadeRow e bedId s kind name now = some t := by
      rcases hkind with h | h | h
      · subst h
        exact ⟨_, by unfold cascadeRow; rw [if_pos rfl]⟩
      · subst h
        exact ⟨_, by unfold cascadeRow; rw [if_neg (by decide), if_pos rfl]⟩
      · subst h
        exact ⟨_, by unfold cascadeRow; rw [if_neg (by decide), if_neg (by decide), if_pos rfl]⟩
    have hrows : rowsFor (reserve db (some e) now bedId name (some kind) (some beds) q).2 e s
        = [target] := by
      rw [hres]
      exact applyCascade_rowsFor_of_nil e bedId kind name now htarget hsb beds _ hs hnil1
    refine ⟨target, hrows, ?_, (cascadeRow_fields htarget).2.2, ?_, ?_, ?_⟩
    · rw [findRow_eq_head_rowsFor, hrows]
      rfl
    · intro h
      subst h
      unfold cascadeRow at htarget
      rw [if_pos rfl] at htarget
      injection htarget with h2
      subst h2
      exact ⟨rfl, rfl⟩
    · intro h
      subst h
      unfold cascadeRow at htarget
      rw [if_neg (by simp), if_pos rfl] at htarget
      injection htarget with h2
      subst h2
      exact ⟨rfl, rfl⟩
    · intro h
      subst h
      unfold cascadeRow at htarget
      rw [if_neg (by simp), if_neg (by simp), if_pos rfl] at htarget
      injection htarget with h2
      subst h2
      exact ⟨rfl, rfl⟩
  · rintro ⟨r, hr, hk⟩
    have hne : rowsFor db e s ≠ [] := fun hc => rowsFor_eq_nil_iff.mp hc r hr hk
    have h1 : rowsFor (upsertBooking db (bookedRow e bedId name now q)) e s
        = rowsFor db e s := upsert_rowsFor_other db _ hkeyrow
    rw [hres]
    rw [applyCascade_rowsFor_of_mem e bedId kind name now beds _ (by rw [h1]; exact hne), h1]

/-- Witness for C1 at a concrete input: a `women` cascade over a free
sibling and an occupied sibling. -/
theorem c1_cascade_iff_witness :
    rowsFor (reserve
        [{ eventId := 1, bedId := "B3", name := "Bob", bookedAt := 2,
           status := Status.booked, blockedBy := none, lg := defaultLogistics }]
        (some 1) 5 "B1" "Alice" (some "women") (some ["B1", "B2", "B3"]) noReq).2 1 "B3"
      = [{ eventId := 1, bedId := "B3", name := "Bob", bookedAt := 2,
           status := Status.booked, blockedBy := none, lg := defaultLogistics }] ∧
    ∃ row, findRow (reserve
        [{ eventId := 1, bedId := "B3", name := "Bob", bookedAt := 2,
           status := Status.booked, blockedBy := none, lg := defaultLogistics }]
        (some 1) 5 "B1" "Alice" (some "women") (some ["B1", "B2", "B3"]) noReq).2 1 "B2"
      = some row ∧ row.status = Status.women_only ∧ row.blockedBy = some "B1" := by
  constructor
  · have h := (c1_cascade_iff
      [{ eventId := 1, bedId := "B3", name := "Bob", bookedAt := 2,
         status := Status.booked, blockedBy := none, lg := defaultLogistics }]
      1 5 "B1" "Alice" "women" ["B1", "B2", "B3"] noReq "B3"
      (by decide) (Or.inr (Or.inl rfl)) (by simp) (by decide)).2
    rw [h ⟨_, List.mem_singleton_self _, rfl, rfl⟩]
    rfl
  · obtain ⟨row, _, hf, hb, _, hw, _⟩ := (c1_cascade_iff
      [{ eventId := 1, bedId := "B3", name := "Bob", bookedAt := 2,
         status := Status.booked, blockedBy := none, lg := defaultLogistics }]
      1 5 "B1" "Alice" "women" ["B1", "B2", "B3"] noReq "B2"
      (by decide) (Or.inr (Or.inl rfl)) (by simp) (by decide)).1
      (by intro r hr hc; simp at hr; rw [hr] at hc; exact absurd hc.2 (by decide))
    exact ⟨row, hf, (hw rfl).1, hb⟩

/-- C2: Release deletes the Bed Slot at the bed and every slot of the
event whose blocking relation equals the bed — including slots meanwhile
booked via Claim, since Claim preserves every row's blocking relation —
and touches nothing else; `List(e)` afterwards contains none of them. -/
theorem c2_release_cascade_delete (db : DB) (e : Nat) (bedId : String) :
    (release db (some e) bedId).1 = Resp.okDelete bedId ∧
    (∀ r ∈ (release db (some e) bedId).2,
       ¬(r.eventId = e ∧ (r.bedId = bedId ∨ r.blockedBy = some bedId))) ∧
    (∀ r ∈ db, r.eventId = e → r.bedId ≠ bedId → r.blockedBy ≠ some bedId →
       r ∈ (release db (some e) bedId).2) ∧
    (∀ l, listBookings (release db (some e) bedId).2 (some e) = some l →
       ∀ r ∈ l, r.bedId ≠ bedId ∧ r.blockedBy ≠ some bedId) ∧
    (∀ (db0 : DB) (now : Nat) (b2 name2 : String) (q : ReqLogistics),
       ((claimOp db0 (some e) now b2 name2 q).2).map Row.blockedBy
         = db0.map Row.blockedBy) := by
  have hmem : ∀ r, r ∈ (release db (some e) bedId).2 ↔
      r ∈ db ∧ ¬(r.eventId = e ∧ r.blockedBy = some bedId) ∧
        ¬(r.eventId = e ∧ r.bedId = bedId) := by
    intro r
    simp only [release, List.mem_filter]
    constructor
    · rintro ⟨⟨h1, h2⟩, h3⟩
      simp at h2 h3
      exact ⟨h1, by tauto, by tauto⟩
    · rintro ⟨h1, h2, h3⟩
      have h2b : (!(r.eventId == e && r.blockedBy == some bedId)) = true := by
        simp
        tauto
      have h3b : (!(r.eventId == e && r.bedId == bedId)) = true := by
        simp
        tauto
      exact ⟨⟨h1, h2b⟩, h3b⟩
  refine ⟨rfl, ?_, ?_, ?_, ?_⟩
  · intro r hr
    rcases (hmem r).mp hr with ⟨_, h2, h3⟩
    rintro ⟨hev, hbed | hbb⟩
    · exact h3 ⟨hev, hbed⟩
    · exact h2 ⟨hev, hbb⟩
  · intro r hr hev hbed hbb
    exact (hmem r).mpr ⟨hr, fun hc => hbb hc.2, fun hc => hbed hc.2⟩
  · intro l hl r hrl
    have hl2 : l = ((release db (some e) bedId).2).filter (fun r => r.eventId == e) := by
      simp only [listBookings] at hl
      injection hl with h2
      exact h2.symm
    subst hl2
    rcases List.mem_filter.mp hrl with ⟨hr, hev⟩
    rcases (hmem r).mp hr with ⟨_, h2, h3⟩
    have hev2 : r.eventId = e := by simpa using hev
    exact ⟨fun hc => h3 ⟨hev2, hc⟩, fun hc => h2 ⟨hev2, hc⟩⟩
  · intro db0 now b2 name2 q
    by_cases hn : jsTrim name2 = ""
    · simp [claimOp, hn]
    · simp only [claimOp]
      rw [if_neg hn]
      rw [List.map_map]
      refine List.map_congr_left ?_
      intro r _
      by_cases hc : (keyMatch e b2 r && genderRestricted r.status) = true
      · simp [hc, claimUpdate, Function.comp]
      · simp [hc, Function.comp]

/-- Witness for C2: the spec §8 scenario — after claiming B2, releasing
the anchor B1 also removes B2 (blocking relation B1) and B3. -/
theorem c2_release_cascade_delete_witness :
    exRowClaimed ∉ (release exDB (some 1) "B1").2 ∧
    (release exDB (some 1) "B1").1 = Resp.okDelete "B1" := by
  have h := c2_release_cascade_delete exDB 1 "B1"
  refine ⟨fun hc => h.2.1 exRowClaimed hc ?_, h.1⟩
  exact ⟨rfl, Or.inr rfl⟩

/-- C3: Claim with a non-empty name reports success and transitions the
Bed Slot to `booked` — overwriting occupant name, timestamp and logistics
while preserving the blocking relation — if and only if the slot's prior
status is `women_only` or `men_only`; with no slot, or a slot in any other
status, zero rows are affected and the ledger is unchanged. -/
theorem c3_claim_iff (db : DB) (e now : Nat) (bedId name : String)
    (q : ReqLogistics) (hname : jsTrim name ≠ "") :
    (claimOp db (some e) now bedId name q).1 = Resp.ok bedId name ∧
    (∀ r, findRow db e bedId = some r → genderRestricted r.status = true →
       findRow (claimOp db (some e) now bedId name q).2 e bedId
         = some (claimUpdate name now q r) ∧
       (claimUpdate name now q r).status = Status.booked ∧
       (claimUpdate name now q r).name = jsTrim name ∧
       (claimUpdate name now q r).bookedAt = now ∧
       (claimUpdate name now q r).lg = reqLogistics q ∧
       (claimUpdate name now q r).blockedBy = r.blockedBy) ∧
    (findRow db e bedId = none → (claimOp db (some e) now bedId name q).2 = db) ∧
    (∀ r, findRow db e bedId = some r → genderRestricted r.status = false →
       KeysUnique db → (claimOp db (some e) now bedId name q).2 = db) := by
  have hop : (claimOp db (some e) now bedId name q)
      = (Resp.ok bedId name,
         db.map (fun r =>
           if keyMatch e bedId r && genderRestricted r.status then
             claimUpdate name now q r
           else r)) := by
    simp only [claimOp]
    rw [if_neg hname]
  have hpres : ∀ x, keyMatch e bedId
      ((fun r => if keyMatch e bedId r && genderRestricted r.status then
          claimUpdate name now q r else r) x) = keyMatch e bedId x := by
    intro x
    show keyMatch e bedId (if keyMatch e bedId x && genderRestricted x.status then
        claimUpdate name now q x else x) = keyMatch e bedId x
    by_cases hc : (keyMatch e bedId x && genderRestricted x.status) = true
    · rw [if_pos hc]
      exact claimUpdate_keyMatch e bedId name now q x
    · rw [if_neg hc]
  refine ⟨by rw [hop], ?_, ?_, ?_⟩
  · intro r hfind hst
    have hk : keyMatch e bedId r = true := List.find?_some hfind
    have hcond : (keyMatch e bedId r && genderRestricted r.status) = true := by
      rw [hk, hst]
      rfl
    have := find?_map_keyPreserving db e bedId _ hpres hfind
    rw [hcond] at this
    rw [hop]
    exact ⟨this, rfl, rfl, rfl, rfl, rfl⟩
  · intro hnone
    rw [hop]
    refine map_eq_self_of_fixes ?_
    intro r hr
    have hk : ¬ keyMatch e bedId r = true := by
      intro hc
      exact (findRow_eq_none_iff.mp hnone) r hr (keyMatch_eq_true.mp hc)
    rw [if_neg (by simp [hk])]
  · intro r hfind hst hu
    rw [hop]
    refine map_eq_self_of_fixes ?_
    intro x hx
    by_cases hk : keyMatch e bedId x = true
    · have hxr : x = r := by
        rcases findRow_mem hfind with ⟨hrmem, hrk⟩
        exact keysUnique_all_eq hu hrmem hrk x hx (keyMatch_eq_true.mp hk)
      subst hxr
      rw [if_neg (by simp [hst])]
    · rw [if_neg (by simp [hk])]

/-- Witness for C3: claiming the restricted B3 of the scenario ledger
books it and keeps its blocking relation; the booked B2 is a no-op. -/
theorem c3_claim_iff_witness :
    findRow (claimOp exDB (some 1) 30 "B3" "Gina" noReq).2 1 "B3"
      = some (claimUpdate "Gina" 30 noReq exRowWomen) ∧
    (claimUpdate "Gina" 30 noReq exRowWomen).status = Status.booked ∧
    (claimUpdate "Gina" 30 noReq exRowWomen).blockedBy = some "B1" ∧
    (claimOp exDB (some 1) 30 "B2" "Gina" noReq).2 = exDB := by
  have h3 := c3_claim_iff exDB 1 30 "B3" "Gina" noReq (by decide)
  have h2 := c3_claim_iff exDB 1 30 "B2" "Gina" noReq (by decide)
  obtain ⟨hf, hs, _, _, _, hb⟩ := h3.2.1 exRowWomen (by decide) (by decide)
  refine ⟨hf, hs, ?_, ?_⟩
  · rw [hb]
    rfl
  · exact h2.2.2.2 exRowClaimed (by decide) (by decide) (by decide)

/-- C6: Unblock reports success and deletes the Bed Slot at the bed if and
only if its prior status is `blocked`, `women_only` or `men_only`; a
booked bed and a free bed are unaffected, and no other bed's slot is ever
deleted or modified. -/
theorem c6_unblock_iff (db : DB) (e : Nat) (bedId : String)
    (hu : KeysUnique db) :
    (unblock db (some e) bedId).1 = Resp.okDelete bedId ∧
    (∀ r, findRow db e bedId = some r → restrictedStatus r.status = true →
       findRow (unblock db (some e) bedId).2 e bedId = none) ∧
    (∀ r, findRow db e bedId = some r → r.status = Status.booked →
       (unblock db (some e) bedId).2 = db) ∧
    (findRow db e bedId = none → (unblock db (some e) bedId).2 = db) ∧
    (∀ r ∈ db, (r.eventId ≠ e ∨ r.bedId ≠ bedId) →
       r ∈ (unblock db (some e) bedId).2) := by
  refine ⟨rfl, ?_, ?_, ?_, ?_⟩
  · intro r hfind hst
    rw [findRow_eq_none_iff]
    intro x hx hxk
    rcases List.mem_filter.mp hx with ⟨hxdb, hpass⟩
    have hxr : x = r := by
      rcases findRow_mem hfind with ⟨hrmem, hrk⟩
      exact keysUnique_all_eq hu hrmem hrk x hxdb hxk
    subst hxr
    have hkx : keyMatch e bedId x = true := keyMatch_eq_true.mpr hxk
    simp [hkx, hst] at hpass
  · intro r hfind hbooked
    simp only [unblock]
    refine List.filter_eq_self.mpr ?_
    intro x hx
    by_cases hk : keyMatch e bedId x = true
    · have hxr : x = r := by
        rcases findRow_mem hfind with ⟨hrmem, hrk⟩
        exact keysUnique_all_eq hu hrmem hrk x hx (keyMatch_eq_true.mp hk)
      subst hxr
      simp [hbooked, restrictedStatus]
    · simp [hk]
  · intro hnone
    simp only [unblock]
    refine List.filter_eq_self.mpr ?_
    intro x hx
    have hk : ¬ keyMatch e bedId x = true := by
      intro hc
      exact (findRow_eq_none_iff.mp hnone) x hx (keyMatch_eq_true.mp hc)
    simp [hk]
  · intro r hr hne
    simp only [unblock]
    refine List.mem_filter.mpr ⟨hr, ?_⟩
    have hk : ¬ keyMatch e bedId r = true := by
      intro hc
      rcases keyMatch_eq_true.mp hc with ⟨h1, h2⟩
      rcases hne with hne | hne
      · exact hne h1
      · exact hne h2
    simp [hk]

/-- Witness for C6: unblocking the restricted B3 removes it, unblocking
the booked B2 is a no-op. -/
theorem c6_unblock_iff_witness :
    findRow (unblock exDB (some 1) "B3").2 1 "B3" = none ∧
    (unblock exDB (some 1) "B2").2 = exDB := by
  have h3 := c6_unblock_iff exDB 1 "B3" (by decide)
  have h2 := c6_unblock_iff exDB 1 "B2" (by decide)
  exact ⟨h3.2.1 exRowWomen (by decide) (by decide),
         h2.2.2.1 exRowClaimed (by decide) (by decide)⟩

/-- C8: on every ledger the endpoints can actually produce, Release and
Unblock invoked on an already-absent bed id — or, for Unblock, a bed whose
status does not match — return success and leave the ledger entirely
unchanged rather than surfacing a not-found error. (Reachability supplies
the two storage invariants the code relies on: unique keys, and every
blocking relation pointing at a live booked anchor, so that the
cascade-delete of a released absent bed finds nothing either.) -/
theorem c8_idempotent_deletes (db : DB) (hr : Reachable db) (e : Nat)
    (bedId : String) :
    (findRow db e bedId = none →
       release db (some e) bedId = (Resp.okDelete bedId, db) ∧
       unblock db (some e) bedId = (Resp.okDelete bedId, db)) ∧
    (∀ r, findRow db e bedId = some r → r.status = Status.booked →
       unblock db (some e) bedId = (Resp.okDelete bedId, db)) := by
  have hAD := reachable_anchoredDeps hr
  have hKU := reachable_keysUnique hr
  constructor
  · intro hnone
    have hnokey := findRow_eq_none_iff.mp hnone
    constructor
    · refine release_noop db e bedId hnokey ?_
      intro x hx hc
      obtain ⟨r2, hr2, hev, hbed, _, _⟩ := hAD x hx bedId hc.2
      exact hnokey r2 hr2 ⟨by rw [hev, hc.1], hbed⟩
    · refine unblock_noop db e bedId ?_
      intro x hx hc
      exact hnokey x hx ⟨hc.1, hc.2.1⟩
  · intro r hfind hbooked
    refine unblock_noop db e bedId ?_
    intro x hx hc
    have hxr : x = r := by
      rcases findRow_mem hfind with ⟨hrmem, hrk⟩
      exact keysUnique_all_eq hKU hrmem hrk x hx ⟨hc.1, hc.2.1⟩
    rw [hxr, hbooked] at hc
    exact absurd hc.2.2 (by simp [restrictedStatus])

/-- Witness for C8: on the reachable ledger of the spec §8 scenario
(reserve with a `women` cascade, then a claim), releasing an absent bed
and unblocking the claimed (booked) bed are both no-op successes. -/
theorem c8_idempotent_deletes_witness :
    release (claimOp (reserve [] (some 1) 10 "B1" "Alice" (some "women")
        (some ["B1", "B2", "B3"]) noReq).2 (some 1) 20 "B2" "Dana" noReq).2
        (some 1) "B9"
      = (Resp.okDelete "B9",
         (claimOp (reserve [] (some 1) 10 "B1" "Alice" (some "women")
           (some ["B1", "B2", "B3"]) noReq).2 (some 1) 20 "B2" "Dana" noReq).2) ∧
    unblock (claimOp (reserve [] (some 1) 10 "B1" "Alice" (some "women")
        (some ["B1", "B2", "B3"]) noReq).2 (some 1) 20 "B2" "Dana" noReq).2
        (some 1) "B2"
      = (Resp.okDelete "B2",
         (claimOp (reserve [] (some 1) 10 "B1" "Alice" (some "women")
           (some ["B1", "B2", "B3"]) noReq).2 (some 1) 20 "B2" "Dana" noReq).2) := by
  have hreach : Reachable (claimOp (reserve [] (some 1) 10 "B1" "Alice"
      (some "women") (some ["B1", "B2", "B3"]) noReq).2
      (some 1) 20 "B2" "Dana" noReq).2 :=
    Reachable.claimStep _ _ _ _ _ _
      (Reachable.reserveStep _ _ _ _ _ _ _ _ Reachable.empty)
  have h := c8_idempotent_deletes _ hreach 1 "B9"
  have h2 := c8_idempotent_deletes _ hreach 1 "B2"
  refine ⟨(h.1 (by decide)).1, ?_⟩
  refine h2.2
    { eventId := 1, bedId := "B2", name := "Dana", bookedAt := 20,
      status := Status.booked, blockedBy := some "B1",
      lg := reqLogistics noReq }
    (by decide) rfl

/-- C9: Waitlist List returns exactly the waitlist entries of the event
(a permutation of nothing more, nothing less), ordered by creation time
ascending; Append requires a non-empty trimmed name and returns the
created entry, which is appended to the store. -/
theorem c9_waitlist (w : WDB) (e : Nat) (now : Nat) (name : String)
    (comment : Option String) :
    (∃ l, waitlistList w (some e) = some l ∧
       l.Perm (w.rows.filter (fun r => r.eventId == e)) ∧
       l.Sorted createdLE ∧
       ∀ r ∈ l, r.eventId = e) ∧
    (jsTrim name ≠ "" →
       waitlistAppend w (some e) now name comment
         = (WResp.created
             { id := w.nextId, eventId := e, name := jsTrim name,
               comment := normComment comment, createdAt := now },
            { rows := w.rows ++
                [{ id := w.nextId, eventId := e, name := jsTrim name,
                   comment := normComment comment, createdAt := now }],
              nextId := w.nextId + 1 })) ∧
    (jsTrim name = "" →
       waitlistAppend w (some e) now name comment
         = (WResp.badRequest "Name ist erforderlich", w)) := by
  refine ⟨⟨_, rfl, ?_, ?_, ?_⟩, ?_, ?_⟩
  · exact List.perm_insertionSort createdLE _
  · exact List.sorted_insertionSort createdLE _
  · intro r hr
    have hmem : r ∈ w.rows.filter (fun r => r.eventId == e) :=
      ((List.perm_insertionSort createdLE _).mem_iff).mp hr
    simpa using (List.mem_filter.mp hmem).2
  · intro hn
    simp only [waitlistAppend]
    rw [if_neg hn]
  · intro hn
    simp only [waitlistAppend]
    rw [if_pos hn]

/-- Witness for C9: appending a name with surrounding blanks and a blank
comment stores the trimmed name, a null comment, and returns the entry. -/
theorem c9_waitlist_witness :
    waitlistAppend { rows := [], nextId := 1 } (some 1) 5 " Bob " (some "  ")
      = (WResp.created
          { id := 1, eventId := 1, name := "Bob", comment := none, createdAt := 5 },
         { rows := [{ id := 1, eventId := 1, name := "Bob", comment := none,
                      createdAt := 5 }],
           nextId := 2 }) := by
  have h := (c9_waitlist { rows := [], nextId := 1 } 1 5 " Bob " (some "  ")).2.1
    (by decide)
  exact h.trans (by decide)

/-- C10: every booking operation and every waitlist operation invoked with
event id `e` writes only rows of event `e` — the rows of every other
event are exactly preserved (same content, same order) — and the two List
reads return only rows of event `e`. -/
theorem c10_event_isolation (db : DB) (e now : Nat) (bedId name : String)
    (restriction : Option String) (roomBeds : Option (List String))
    (q : ReqLogistics) (w : WDB) (wname : String) (wc : Option String)
    (id : Nat) :
    (((reserve db (some e) now bedId name restriction roomBeds q).2).filter
        (fun r => !(r.eventId == e))
      = db.filter (fun r => !(r.eventId == e))) ∧
    (((release db (some e) bedId).2).filter (fun r => !(r.eventId == e))
      = db.filter (fun r => !(r.eventId == e))) ∧
    (((unblock db (some e) bedId).2).filter (fun r => !(r.eventId == e))
      = db.filter (fun r => !(r.eventId == e))) ∧
    (((claimOp db (some e) now bedId name q).2).filter
        (fun r => !(r.eventId == e))
      = db.filter (fun r => !(r.eventId == e))) ∧
    (∀ l, listBookings db (some e) = some l → ∀ r ∈ l, r.eventId = e) ∧
    ((((waitlistAppend w (some e) now wname wc).2).rows).filter
        (fun r => !(r.eventId == e))
      = w.rows.filter (fun r => !(r.eventId == e))) ∧
    ((((waitlistRemove w (some e) id).2).rows).filter
        (fun r => !(r.eventId == e))
      = w.rows.filter (fun r => !(r.eventId == e))) ∧
    (∀ l, waitlistList w (some e) = some l → ∀ r ∈ l, r.eventId = e) := by
  refine ⟨?_, ?_, ?_, ?_, ?_, ?_, ?_, ?_⟩
  · by_cases hn : jsTrim name = ""
    · rw [reserve_snd_blank db e now bedId name restriction roomBeds q hn]
    · have hup := upsert_filterNot db (bookedRow e bedId name now q) e rfl
      rcases restriction with _ | kind
      · rw [reserve_snd_upsert_only db e now bedId name q hn none roomBeds (Or.inl rfl)]
        exact hup
      · rcases roomBeds with _ | beds
        · rw [reserve_snd_upsert_only db e now bedId name q hn (some kind) none
            (Or.inr (Or.inl rfl))]
          exact hup
        · by_cases hk : kind = "none"
          · subst hk
            rw [reserve_snd_upsert_only db e now bedId name q hn (some "none")
              (some beds) (Or.inr (Or.inr rfl))]
            exact hup
          · rw [reserve_cascade_eq db e now bedId name kind beds q hn hk]
            rw [applyCascade_filterNot e bedId kind name now beds _]
            exact hup
  · show ((db.filter _).filter _).filter _ = _
    rw [filter_of_filter _ _ _ ?h1, filter_of_filter _ _ _ ?h2]
    case h1 =>
      intro a ha
      have : a.eventId ≠ e := by simpa using ha
      simp [this]
    case h2 =>
      intro a ha
      have : a.eventId ≠ e := by simpa using ha
      simp [this]
  · show (db.filter _).filter _ = _
    refine filter_of_filter _ _ _ ?_
    intro a ha
    have hne : a.eventId ≠ e := by simpa using ha
    have : ¬ keyMatch e bedId a = true := fun hc => hne (keyMatch_eq_true.mp hc).1
    simp [this]
  · by_cases hn : jsTrim name = ""
    · rw [claim_snd_blank db e now bedId name q hn]
    · have hop : (claimOp db (some e) now bedId name q).2
          = db.map (fun r =>
              if keyMatch e bedId r && genderRestricted r.status then
                claimUpdate name now q r
              else r) := by
        simp only [claimOp]
        rw [if_neg hn]
      rw [hop]
      refine filter_map_invariant _ _ _ ?_ ?_
      · intro a
        by_cases hc : (keyMatch e bedId a && genderRestricted a.status) = true
        · rw [if_pos hc]
          rfl
        · rw [if_neg hc]
      · intro a ha
        have hne : a.eventId ≠ e := by simpa using ha
        have : ¬ keyMatch e bedId a = true := fun hc => hne (keyMatch_eq_true.mp hc).1
        rw [if_neg (by simp [this])]
  · intro l hl r hr
    have hl2 : l = db.filter (fun r => r.eventId == e) := by
      simp only [listBookings] at hl
      injection hl with h2
      exact h2.symm
    subst hl2
    simpa using (List.mem_filter.mp hr).2
  · by_cases hn : jsTrim wname = ""
    · simp only [waitlistAppend]
      rw [if_pos hn]
    · simp only [waitlistAppend]
      rw [if_neg hn]
      refine filter_append_none _ _ _ ?_
      intro a ha
      rw [List.mem_singleton] at ha
      rw [ha]
      simp
  · show (w.rows.filter _).filter _ = _
    refine filter_of_filter _ _ _ ?_
    intro a ha
    have hne : a.eventId ≠ e := by simpa using ha
    simp [hne]
  · intro l hl r hr
    have hl2 : l = List.insertionSort createdLE
        (w.rows.filter (fun r => r.eventId == e)) := by
      simp only [waitlistList] at hl
      injection hl with h2
      exact h2.symm
    subst hl2
    have hmem : r ∈ w.rows.filter (fun r => r.eventId == e) :=
      ((List.perm_insertionSort createdLE _).mem_iff).mp hr
    simpa using (List.mem_filter.mp hmem).2

/-- Witness for C10: a reserve with cascade under event 1 leaves the
event-2 row untouched. -/
theorem c10_event_isolation_witness :
    ((reserve [{ eventId := 2, bedId := "B1", name := "Zoe", bookedAt := 0,
                 status := Status.booked, blockedBy := none,
                 lg := defaultLogistics }]
        (some 1) 5 "B1" "Al" (some "blocked") (some ["B1", "B2"]) noReq).2).filter
        (fun r => !(r.eventId == 1))
      = [{ eventId := 2, bedId := "B1", name := "Zoe", bookedAt := 0,
           status := Status.booked, blockedBy := none,
           lg := defaultLogistics }] := by
  have h := (c10_event_isolation
    [{ eventId := 2, bedId := "B1", name := "Zoe", bookedAt := 0,
       status := Status.booked, blockedBy := none, lg := defaultLogistics }]
    1 5 "B1" "Al" (some "blocked") (some ["B1", "B2"]) noReq
    { rows := [], nextId := 1 } "x" none 0).1
  exact h.trans (by decide)

end Maitreffen
